import Mathlib

/-!
Verification of the track/clip database (`ml_tools/trackdatabase.py`).

The database stores clips and tracks in an HDF5 file: a root group `clips`,
one group per clip (attributes = clip metadata plus a boolean `finished`
marker), and one int16 dataset per track directly under its clip group
(attributes = track metadata).  We embed the logical content of the HDF5
file as an association-list tree and translate each public operation of
`TrackDatabase` into a Lean function over that state.

Machine integers: numpy int16/int32 casts are modelled as wrapping
conversions on `Int`.  The float default `0.0` (clip confidence) is
represented by the integer `0`; it is exactly representable and no float
arithmetic ever happens on it.  Attribute iteration order of h5py is not
relied upon anywhere below: metadata results are consumed through key
lookup only.
-/

namespace TrackDb

/-- Scalar or homogeneous-array attribute value, as storable in HDF5
attributes by the program: strings, numbers, booleans, an int32 vector
(`mass_history`) and an int16 matrix (`bounds_history`). -/
inductive AttrValue where
  | str (s : String)
  | num (n : Int)
  | boolean (b : Bool)
  | numArr (a : List Int)
  | numArr2 (a : List (List Int))
deriving DecidableEq

/-- One HDF5 dataset created by `add_track`: its dimensions
(frames, channels, height, width), its flat row-major int16 contents, and
its attributes. -/
structure TrackDataset where
  dims : List Nat
  data : List Int
  attrs : List (String × AttrValue)
deriving DecidableEq

/-- A clip group: its attributes and the track datasets stored under it,
as an association list in creation order. -/
structure ClipNode where
  attrs : List (String × AttrValue)
  tracks : List (String × TrackDataset)
deriving DecidableEq

/-- The database state: the members of the root `clips` group, in creation
order.  `TrackDatabase.__init__` guarantees the `clips` group exists. -/
structure DB where
  clips : List (String × ClipNode)
deriving DecidableEq

/-- The freshly initialised database: an empty `clips` group. -/
def emptyDB : DB := ⟨[]⟩

/-- First-binding lookup in an association list (h5py name lookup). -/
def lookupA {α : Type} (k : String) : List (String × α) → Option α
  | [] => none
  | p :: rest => if p.1 = k then some p.2 else lookupA k rest

/-- Overwrite the first binding of `k`, or append a new binding
(h5py attribute assignment `attrs[k] = v`). -/
def setA {α : Type} (k : String) (v : α) : List (String × α) → List (String × α)
  | [] => [(k, v)]
  | p :: rest => if p.1 = k then (k, v) :: rest else p :: setA k v rest

/-- Remove the first binding of `k` (h5py `del group[k]`). -/
def eraseA {α : Type} (k : String) : List (String × α) → List (String × α)
  | [] => []
  | p :: rest => if p.1 = k then rest else p :: eraseA k rest

/-- Wrapping conversion to a signed 16-bit integer (numpy int16 cast). -/
def wrapInt16 (v : Int) : Int := (v + 32768) % 65536 - 32768

/-- Wrapping conversion to a signed 32-bit integer (numpy int32 cast). -/
def wrapInt32 (v : Int) : Int := (v + 2147483648) % 4294967296 - 2147483648

/-- A numpy array as passed to / returned by the database: its shape and
its flat row-major contents. -/
structure NDArray where
  shape : List Nat
  data : List Int
deriving DecidableEq

/-- Errors surfaced by the translated operations: `KeyError` (missing id),
`ValueError` (h5py name clash / illegal dataset indexing), and the
`ValueError` from unpacking a shape that is not 4-dimensional. -/
inductive DBError where
  | keyError
  | valueError
  | shapeError
deriving DecidableEq

/-- `TrackDatabase.has_clip`: `clip_id in clips and 'finished' in
clips[clip_id].attrs`. -/
def has_clip (db : DB) (clip_id : String) : Bool :=
  match lookupA clip_id db.clips with
  | some clip => (lookupA "finished" clip.attrs).isSome
  | none => false

/-- The tracker-like collaborator consumed by `create_clip`: source file
name, start time (already an ISO-8601 string, as produced by
`isoformat()`), threshold, and the open `stats` mapping. -/
structure Tracker where
  source_file : String
  video_start_time : String
  threshold : Int
  stats : List (String × AttrValue)
deriving DecidableEq

/-- Python `dict.get(k, dflt)`. -/
def statGet (stats : List (String × AttrValue)) (k : String) (dflt : AttrValue) : AttrValue :=
  (lookupA k stats).getD dflt

/-- Python truthiness of the attribute values the `or` defaults are
applied to (scalars; the program applies it to `confidence`, `trap` and
`event` only). -/
def isFalsy : AttrValue → Bool
  | .str s => s = ""
  | .num n => n = 0
  | .boolean b => !b
  | .numArr _ => false
  | .numArr2 _ => false

/-- Python `v or dflt`. -/
def pyOr (v dflt : AttrValue) : AttrValue := if isFalsy v then dflt else v

/-- Primitive write: delete clip `c` if present (`del clips[clip_id]`,
guarded by `clip_id in clips` in the source). -/
def delClip (c : String) (db : DB) : DB := ⟨eraseA c db.clips⟩

/-- Primitive write: `clips.create_group(clip_id)`.  h5py raises
`ValueError` when the name exists; callers reach this write only when the
name is free, so the present-name branch is inert here and the error is
raised by `create_clip` itself. -/
def createGroup (c : String) (db : DB) : DB :=
  match lookupA c db.clips with
  | some _ => db
  | none => ⟨db.clips ++ [(c, ⟨[], []⟩)]⟩

/-- Primitive write: assign one clip attribute
(`clips[clip_id].attrs[k] = v`). -/
def setClipAttr (c k : String) (v : AttrValue) (db : DB) : DB :=
  match lookupA c db.clips with
  | some clip => ⟨setA c { clip with attrs := setA k v clip.attrs } db.clips⟩
  | none => db

/-- Primitive write: assign one track-dataset attribute
(`dset.attrs[k] = v`). -/
def setTrackAttr (c t k : String) (v : AttrValue) (db : DB) : DB :=
  match lookupA c db.clips with
  | some clip =>
    match lookupA t clip.tracks with
    | some ds =>
      ⟨setA c { clip with tracks := setA t { ds with attrs := setA k v ds.attrs } clip.tracks } db.clips⟩
    | none => db
  | none => db

/-- Primitive write: `clip_node.create_dataset(track_id, dims, ...)` —
a fresh int16 dataset, zero-filled until assigned. -/
def createDataset (c t : String) (dims : List Nat) (db : DB) : DB :=
  match lookupA c db.clips with
  | some clip =>
    ⟨setA c { clip with tracks := clip.tracks ++ [(t, ⟨dims, List.replicate dims.prod 0, []⟩)] } db.clips⟩
  | none => db

/-- Primitive write: `dset[:,:,:,:] = track_data`; values are cast to the
dataset's int16 dtype on assignment. -/
def writeDatasetData (c t : String) (vals : List Int) (db : DB) : DB :=
  match lookupA c db.clips with
  | some clip =>
    match lookupA t clip.tracks with
    | some ds =>
      ⟨setA c { clip with tracks := setA t { ds with data := vals.map wrapInt16 } clip.tracks } db.clips⟩
    | none => db
  | none => db

/-- `f.flush()`: forces durability, no change to the logical contents. -/
def flushStore (db : DB) : DB := db

/-- Run a sequence of primitive writes in order. -/
def runWrites (ws : List (DB → DB)) (db : DB) : DB := ws.foldl (fun d w => w d) db

/-- The clip attribute assignments of `create_clip`'s tracker branch, in
source order (lines 78-87). -/
def trackerAttrWrites (c : String) (tk : Tracker) : List (DB → DB) :=
  [ setClipAttr c "filename" (.str tk.source_file),
    setClipAttr c "start_time" (.str tk.video_start_time),
    setClipAttr c "threshold" (.num tk.threshold),
    setClipAttr c "confidence" (pyOr (statGet tk.stats "confidence" (.num 0)) (.num 0)),
    setClipAttr c "trap" (pyOr (statGet tk.stats "trap" (.str "")) (.str "")),
    setClipAttr c "event" (pyOr (statGet tk.stats "event" (.str "")) (.str "")),
    setClipAttr c "average_background_delta" (statGet tk.stats "average_background_delta" (.num 0)),
    setClipAttr c "mean_temp" (statGet tk.stats "mean_temp" (.num 0)),
    setClipAttr c "max_temp" (statGet tk.stats "max_temp" (.num 0)),
    setClipAttr c "min_temp" (statGet tk.stats "min_temp" (.num 0)) ]

/-- The tracker branch of `create_clip`: its attribute writes when a
tracker is supplied, nothing otherwise. -/
def trackerWritesOpt (clip_id : String) : Option Tracker → List (DB → DB)
  | some tk => trackerAttrWrites clip_id tk
  | none => []

/-- All writes of `create_clip`'s open/write section except the final
finishing-attribute write: optional delete, group creation, tracker
attributes, flush. -/
def createClipFront (clip_id : String) (tracker : Option Tracker) (overwrite : Bool) : List (DB → DB) :=
  (if overwrite then [delClip clip_id] else [])
  ++ [createGroup clip_id]
  ++ trackerWritesOpt clip_id tracker
  ++ [flushStore]

/-- The full write sequence of `create_clip`. -/
def createClipWrites (clip_id : String) (tracker : Option Tracker) (overwrite : Bool) : List (DB → DB) :=
  createClipFront clip_id tracker overwrite ++ [setClipAttr clip_id "finished" (.boolean true)]

/-- `TrackDatabase.create_clip`.  With `overwrite` the existing group is
deleted first; without it, `create_group` on an existing name raises
`ValueError` before any mutation. -/
def create_clip (db : DB) (clip_id : String) (tracker : Option Tracker) (overwrite : Bool) : Except DBError DB :=
  if !overwrite && (lookupA clip_id db.clips).isSome then
    .error .valueError
  else
    .ok (runWrites (createClipWrites clip_id tracker overwrite) db)

/-- State after `create_clip` is interrupted once `k` of its writes have
completed: the `with` block's exit closes the file, persisting exactly
those writes. -/
def create_clip_faulted (db : DB) (clip_id : String) (tracker : Option Tracker) (overwrite : Bool) (k : Nat) : DB :=
  runWrites ((createClipWrites clip_id tracker overwrite).take k) db

/-- One per-frame bounding record of the track-like collaborator
(`track.bounds_history` elements expose left/top/right/bottom/mass). -/
structure BoundsRec where
  left : Int
  top : Int
  right : Int
  bottom : Int
  mass : Int
deriving DecidableEq

/-- The track-like collaborator consumed by `add_track`: id, tag, the two
ISO-8601 timestamps, the named statistics record (`get_stats()._asdict()`
in field order) and the per-frame bounding history. -/
structure TrackRecord where
  id : Int
  tag : String
  start_time : String
  end_time : String
  stats : List (String × AttrValue)
  bounds_history : List BoundsRec
deriving DecidableEq

/-- `np.int32([bounds.mass for bounds in track.bounds_history])`. -/
def massHistory (rec : TrackRecord) : List Int :=
  rec.bounds_history.map (fun b => wrapInt32 b.mass)

/-- `np.int16([[left, top, right, bottom] for bounds in bounds_history])`. -/
def boundsHistory (rec : TrackRecord) : List (List Int) :=
  rec.bounds_history.map (fun b => [wrapInt16 b.left, wrapInt16 b.top, wrapInt16 b.right, wrapInt16 b.bottom])

/-- The dataset attribute assignments of `add_track`'s record branch, in
source order (lines 190-200). -/
def recordAttrWrites (c t : String) (rec : TrackRecord) : List (DB → DB) :=
  [ setTrackAttr c t "id" (.num rec.id),
    setTrackAttr c t "tag" (.str rec.tag),
    setTrackAttr c t "start_time" (.str rec.start_time),
    setTrackAttr c t "end_time" (.str rec.end_time) ]
  ++ rec.stats.map (fun p => setTrackAttr c t p.1 p.2)
  ++ [ setTrackAttr c t "mass_history" (.numArr (massHistory rec)),
       setTrackAttr c t "bounds_history" (.numArr2 (boundsHistory rec)) ]

/-- The record branch of `add_track`: its attribute writes when a track
record is supplied, nothing otherwise. -/
def recordWritesOpt (c t : String) : Option TrackRecord → List (DB → DB)
  | some r => recordAttrWrites c t r
  | none => []

/-- All writes of `add_track`'s open/write section except the final
finishing-attribute write. -/
def addTrackFront (c t : String) (A : NDArray) (rec : Option TrackRecord) : List (DB → DB) :=
  [createDataset c t A.shape, writeDatasetData c t A.data]
  ++ recordWritesOpt c t rec
  ++ [flushStore]

/-- The full write sequence of `add_track`. -/
def addTrackWrites (c t : String) (A : NDArray) (rec : Option TrackRecord) : List (DB → DB) :=
  addTrackFront c t A rec ++ [setClipAttr c "finished" (.boolean true)]

/-- `TrackDatabase.add_track`.  The shape unpack requires exactly four
dimensions; the clip must exist (`clips[clip_id]` raises `KeyError`
otherwise); `create_dataset` raises `ValueError` on an existing track
name.  Storage options only select a compression backend and have no
logical effect, so they are not modelled. -/
def add_track (db : DB) (clip_id track_id : String) (A : NDArray) (rec : Option TrackRecord) : Except DBError DB :=
  match A.shape with
  | [_, _, _, _] =>
    match lookupA clip_id db.clips with
    | none => .error .keyError
    | some clip =>
      if (lookupA track_id clip.tracks).isSome then .error .valueError
      else .ok (runWrites (addTrackWrites clip_id track_id A rec) db)
  | _ => .error .shapeError

/-- State after `add_track` is interrupted once `k` of its writes have
completed. -/
def add_track_faulted (db : DB) (clip_id track_id : String) (A : NDArray) (rec : Option TrackRecord) (k : Nat) : DB :=
  runWrites ((addTrackWrites clip_id track_id A rec).take k) db

/-- Python slicing of the dataset along the frame axis:
`dset[start_frame:end_frame]` with `None` meaning the corresponding end,
out-of-range bounds clamped. -/
def pySliceFrames (d : TrackDataset) (s e : Option Nat) : NDArray :=
  match d.dims with
  | f :: rest =>
    let cs := rest.prod
    let lo := min (s.getD 0) f
    let hi := min (e.getD f) f
    ⟨(hi - lo) :: rest, (d.data.drop (lo * cs)).take ((hi - lo) * cs)⟩
  | [] => ⟨[], d.data⟩

/-- h5py `Dataset.__getitem__` with a string argument performs named-field
selection, which is only legal on compound dtypes; every dataset this
program creates has plain int16 dtype, so the selection raises
`ValueError`. -/
def datasetFieldSelect (_d : TrackDataset) (_fieldName : String) : Except DBError TrackDataset :=
  .error .valueError

/-- `TrackDatabase.get_track`, line for line: look up the clip, then the
track node under it, then index that node by the track id again
(`track_node[str(track_id)]`), then slice.  The extra indexing hits an
int16 dataset, not a group. -/
def get_track (db : DB) (clip_id track_id : String) (start_frame end_frame : Option Nat) : Except DBError NDArray := do
  let clip ← match lookupA clip_id db.clips with
    | some cl => Except.ok cl
    | none => Except.error DBError.keyError
  let track_node ← match lookupA track_id clip.tracks with
    | some ds => Except.ok ds
    | none => Except.error DBError.keyError
  let dset ← datasetFieldSelect track_node track_id
  Except.ok (pySliceFrames dset start_frame end_frame)

/-- `TrackDatabase.get_clip_meta`: the attributes of the clip node. -/
def get_clip_meta (db : DB) (clip_id : String) : Except DBError (List (String × AttrValue)) :=
  match lookupA clip_id db.clips with
  | some clip => .ok clip.attrs
  | none => .error .keyError

/-- `TrackDatabase.get_track_meta`: the attributes of the track dataset. -/
def get_track_meta (db : DB) (clip_id track_id : String) : Except DBError (List (String × AttrValue)) :=
  match lookupA clip_id db.clips with
  | some clip =>
    match lookupA track_id clip.tracks with
    | some ds => .ok ds.attrs
    | none => .error .keyError
  | none => .error .keyError

/-- Lexicographic comparison of character lists by code point (the byte
order HDF5 uses for its name index on ASCII names). -/
def charListLe : List Char → List Char → Bool
  | [], _ => true
  | _ :: _, [] => false
  | x :: xs, y :: ys =>
    if x.toNat < y.toNat then true
    else if y.toNat < x.toNat then false
    else charListLe xs ys

/-- Lexicographic string order. -/
def strLe (a b : String) : Bool := charListLe a.data b.data

/-- Insert one keyed entry into a key-ordered list. -/
def insertByKey {α : Type} (p : String × α) : List (String × α) → List (String × α)
  | [] => [p]
  | q :: rest => if strLe p.1 q.1 then p :: q :: rest else q :: insertByKey p rest

/-- h5py iterates group members in ascending name order (the default
`H5_INDEX_NAME` iteration index): sort an association list by key. -/
def sortByKey {α : Type} : List (String × α) → List (String × α)
  | [] => []
  | p :: rest => insertByKey p (sortByKey rest)

/-- The inner/outer loops of `get_all_track_ids`: for each clip, in h5py
iteration order, every track name under it. -/
def clipTrackPairs : List (String × ClipNode) → List (String × String)
  | [] => []
  | (cname, clip) :: rest =>
    ((sortByKey clip.tracks).map (fun p => (cname, p.1))) ++ clipTrackPairs rest

/-- `TrackDatabase.get_all_track_ids`. -/
def get_all_track_ids (db : DB) : List (String × String) :=
  clipTrackPairs (sortByKey db.clips)

/-- The dataset stored at `clips/<c>/<t>`, as an observation on states. -/
def getDataset (db : DB) (c t : String) : Option TrackDataset :=
  match lookupA c db.clips with
  | some clip => lookupA t clip.tracks
  | none => none

/-- The track association list of a clip node, as an observation on
states. -/
def clipTracks (db : DB) (c : String) : Option (List (String × TrackDataset)) :=
  (lookupA c db.clips).map (fun clip => clip.tracks)

/-- Structural membership of a (clip, track) pair in the store. -/
def pairMem (db : DB) (c t : String) : Bool :=
  match lookupA c db.clips with
  | some clip => (lookupA t clip.tracks).isSome
  | none => false

instance {ε α : Type} [DecidableEq ε] [DecidableEq α] : DecidableEq (Except ε α) := fun x y =>
  match x, y with
  | .ok a, .ok b =>
    if h : a = b then isTrue (by rw [h]) else isFalse (fun he => h (Except.ok.inj he))
  | .error a, .error b =>
    if h : a = b then isTrue (by rw [h]) else isFalse (fun he => h (Except.error.inj he))
  | .ok _, .error _ => isFalse (fun he => Except.noConfusion he)
  | .error _, .ok _ => isFalse (fun he => Except.noConfusion he)

/-- Extract the success value of a translated operation. -/
def okD {ε α : Type} (r : Except ε α) (dflt : α) : α :=
  match r with
  | .ok v => v
  | .error _ => dflt

/-- Whether a translated operation succeeded. -/
def isOkE {ε α : Type} : Except ε α → Bool
  | .ok _ => true
  | .error _ => false

/-- Key uniqueness of an association list. -/
@[reducible]
def keysNodup {α : Type} (l : List (String × α)) : Prop := (l.map Prod.fst).Nodup

/-- Well-formedness of a database state: clip names are unique and so are
the track names under each clip (HDF5 links are unique by name). -/
@[reducible]
def DB.WF (db : DB) : Prop :=
  keysNodup db.clips ∧ ∀ p ∈ db.clips, keysNodup p.2.tracks

/-- The mutating operations, for reasoning about operation histories. -/
inductive Op where
  | createClipOp (clip_id : String) (tracker : Option Tracker) (overwrite : Bool)
  | addTrackOp (clip_id track_id : String) (A : NDArray) (rec : Option TrackRecord)

/-- Run one mutating operation. -/
def runOp (db : DB) : Op → Except DBError DB
  | .createClipOp c tk ow => create_clip db c tk ow
  | .addTrackOp c t A rec => add_track db c t A rec

/-- Apply one operation; a raising operation leaves the state unchanged
(its error is raised before any mutation). -/
def applyOp (db : DB) (op : Op) : DB :=
  match runOp db op with
  | .ok db' => db'
  | .error _ => db

/-- Run an operation history left to right. -/
def runOps (db : DB) : List Op → DB
  | [] => db
  | op :: rest => runOps (applyOp db op) rest

/-- Whether every operation of a history succeeds when run in order. -/
def opsOk (db : DB) : List Op → Bool
  | [] => true
  | op :: rest =>
    match runOp db op with
    | .ok db' => opsOk db' rest
    | .error _ => false

/-- Fold a history over the liveness of the pair `(c, t)`: a successful
`add_track` of the pair makes it live, any later `create_clip` of its clip
kills it. -/
def livePairFrom (b : Bool) : List Op → String → String → Bool
  | [], _, _ => b
  | .createClipOp c' _ _ :: rest, c, t => livePairFrom (if c = c' then false else b) rest c t
  | .addTrackOp c' t' _ _ :: rest, c, t =>
    livePairFrom (if c = c' ∧ t = t' then true else b) rest c t

/-- A pair is live after a history iff its `add_track` happened after the
last `create_clip` of its clip. -/
def livePair (ops : List Op) (c t : String) : Bool := livePairFrom false ops c t

/-- Whether an operation is a `create_clip` of the given id. -/
def createsClip (op : Op) (c : String) : Bool :=
  match op with
  | .createClipOp c' _ _ => c' = c
  | .addTrackOp _ _ _ _ => false

/-- The file mode an operation passes to `HDF5Manager` (`'r'` default or
`'a'`). -/
inductive FileMode where
  | read
  | append
deriving DecidableEq

/-- The query operations, with their arguments. -/
inductive Query where
  | hasClipQ (clip_id : String)
  | allTrackIdsQ
  | clipMetaQ (clip_id : String)
  | trackMetaQ (clip_id track_id : String)
  | trackQ (clip_id track_id : String) (start_frame end_frame : Option Nat)

/-- The mode each query opens the store with: all five construct
`HDF5Manager(self.database)` and take the default `'r'`. -/
def queryMode : Query → FileMode
  | .hasClipQ _ => .read
  | .allTrackIdsQ => .read
  | .clipMetaQ _ => .read
  | .trackMetaQ _ _ => .read
  | .trackQ _ _ _ _ => .read

/-- Results of query operations. -/
inductive QueryResult where
  | boolR (b : Bool)
  | pairsR (l : List (String × String))
  | attrsR (l : List (String × AttrValue))
  | arrR (a : NDArray)
deriving DecidableEq

/-- A query as a state transformer: the result together with the state the
session leaves behind.  The bodies are the read-only translations above;
none of them contains a primitive write. -/
def runQuery (db : DB) : Query → Except DBError QueryResult × DB
  | .hasClipQ c => (.ok (.boolR (has_clip db c)), db)
  | .allTrackIdsQ => (.ok (.pairsR (get_all_track_ids db)), db)
  | .clipMetaQ c => ((get_clip_meta db c).map .attrsR, db)
  | .trackMetaQ c t => ((get_track_meta db c t).map .attrsR, db)
  | .trackQ c t s e => ((get_track db c t s e).map .arrR, db)

/-! ### The locking gateway

`HDF5Manager` brackets every store operation: `__enter__` acquires the
process-wide `hdf5_lock` and opens the file; `__exit__` closes the file
and releases the lock.  An exception inside the `with` body still runs
`__exit__`, so the lock/file event sequence of a session is the same on
the exception path as on the normal path.  We model two concurrent
sessions as an interleaved transition system over those events. -/

/-- The lock/file events a session emits. -/
inductive LEvent where
  | acq
  | openF
  | closeF
  | rel
deriving DecidableEq

/-- The event sequence of one `HDF5Manager` session: acquire, open, then
(after the body) close and release — close and release run on every exit
path of the body, exceptions included. -/
def sessionTrace : List LEvent := [.acq, .openF, .closeF, .rel]

/-- Two sessions interleaving against the shared lock: each component is
the remaining event sequence of that session. -/
structure LockSt where
  p1 : List LEvent
  p2 : List LEvent
  locked : Bool
deriving DecidableEq

/-- Both sessions about to start, lock free. -/
def initLock : LockSt := ⟨sessionTrace, sessionTrace, false⟩

/-- Interleaved small-step semantics: `acquire` blocks while the lock is
held; the other events always proceed. -/
inductive LStep : LockSt → LockSt → Prop where
  | acq1 (s : LockSt) (r : List LEvent) :
      s.p1 = .acq :: r → s.locked = false → LStep s ⟨r, s.p2, true⟩
  | openF1 (s : LockSt) (r : List LEvent) :
      s.p1 = .openF :: r → LStep s ⟨r, s.p2, s.locked⟩
  | closeF1 (s : LockSt) (r : List LEvent) :
      s.p1 = .closeF :: r → LStep s ⟨r, s.p2, s.locked⟩
  | rel1 (s : LockSt) (r : List LEvent) :
      s.p1 = .rel :: r → LStep s ⟨r, s.p2, false⟩
  | acq2 (s : LockSt) (r : List LEvent) :
      s.p2 = .acq :: r → s.locked = false → LStep s ⟨s.p1, r, true⟩
  | openF2 (s : LockSt) (r : List LEvent) :
      s.p2 = .openF :: r → LStep s ⟨s.p1, r, s.locked⟩
  | closeF2 (s : LockSt) (r : List LEvent) :
      s.p2 = .closeF :: r → LStep s ⟨s.p1, r, s.locked⟩
  | rel2 (s : LockSt) (r : List LEvent) :
      s.p2 = .rel :: r → LStep s ⟨s.p1, r, false⟩

/-- A session holds the lock while its remaining trace sits strictly
between the acquire and the release. -/
def holdsLock (p : List LEvent) : Bool :=
  decide (1 ≤ p.length) && decide (p.length ≤ 3)

/-- A session has the backing file open exactly between its open and its
close: remaining trace `[closeF, rel]`. -/
def sessionOpen (p : List LEvent) : Bool := decide (p.length = 2)

/-- Number of sessions whose open-store window is currently open. -/
def openSessions (s : LockSt) : Nat :=
  (if sessionOpen s.p1 then 1 else 0) + (if sessionOpen s.p2 then 1 else 0)

/-- Inductive invariant of the lock system: each remaining trace is a
suffix of the session trace, a session between acquire and release sees
the lock held, and at most one session is in that window. -/
def LockInv (s : LockSt) : Prop :=
  (s.p1 = sessionTrace ∨ s.p1 = [.openF, .closeF, .rel] ∨ s.p1 = [.closeF, .rel] ∨ s.p1 = [.rel] ∨ s.p1 = [])
  ∧ (s.p2 = sessionTrace ∨ s.p2 = [.openF, .closeF, .rel] ∨ s.p2 = [.closeF, .rel] ∨ s.p2 = [.rel] ∨ s.p2 = [])
  ∧ (holdsLock s.p1 = true → s.locked = true)
  ∧ (holdsLock s.p2 = true → s.locked = true)
  ∧ ¬(holdsLock s.p1 = true ∧ holdsLock s.p2 = true)

/-! ## Association-list lemmas -/

theorem lookupA_setA_self {α : Type} (k : String) (v : α) (l : List (String × α)) :
    lookupA k (setA k v l) = some v := by
  induction l with
  | nil => simp [setA, lookupA]
  | cons p rest ih =>
    by_cases h : p.1 = k
    · simp [setA, h, lookupA]
    · simp [setA, h, lookupA, ih]

theorem lookupA_setA_ne {α : Type} {k k' : String} (h : k' ≠ k) (v : α) (l : List (String × α)) :
    lookupA k' (setA k v l) = lookupA k' l := by
  induction l with
  | nil => simp [setA, lookupA, Ne.symm h]
  | cons p rest ih =>
    by_cases hp : p.1 = k
    · simp [setA, hp, lookupA, Ne.symm h]
    · simp [setA, hp, lookupA, ih]

theorem lookupA_eq_none_iff {α : Type} {k : String} {l : List (String × α)} :
    lookupA k l = none ↔ k ∉ l.map Prod.fst := by
  induction l with
  | nil => simp [lookupA]
  | cons p rest ih =>
    by_cases hp : p.1 = k
    · simp [lookupA, hp]
    · simp [lookupA, hp, ih, Ne.symm hp]

theorem lookupA_isSome_iff {α : Type} {k : String} {l : List (String × α)} :
    (lookupA k l).isSome = true ↔ k ∈ l.map Prod.fst := by
  rw [Option.isSome_iff_ne_none]
  exact not_iff_comm.mp lookupA_eq_none_iff.symm

theorem lookupA_eraseA_ne {α : Type} {k k' : String} (h : k' ≠ k) (l : List (String × α)) :
    lookupA k' (eraseA k l) = lookupA k' l := by
  induction l with
  | nil => simp [eraseA]
  | cons p rest ih =>
    by_cases hp : p.1 = k
    · simp [eraseA, hp, lookupA, Ne.symm h]
    · simp [eraseA, hp, lookupA, ih]

theorem mem_keys_eraseA {α : Type} {k k' : String} {l : List (String × α)} :
    k' ∈ (eraseA k l).map Prod.fst → k' ∈ l.map Prod.fst := by
  induction l with
  | nil => simp [eraseA]
  | cons p rest ih =>
    by_cases hp : p.1 = k
    · simp only [eraseA, if_pos hp, List.map_cons, List.mem_cons]
      intro hm
      exact Or.inr hm
    · simp only [eraseA, if_neg hp, List.map_cons, List.mem_cons]
      rintro (h | h)
      · exact Or.inl h
      · exact Or.inr (ih h)

theorem keysNodup_eraseA {α : Type} (k : String) {l : List (String × α)} (h : keysNodup l) :
    keysNodup (eraseA k l) := by
  induction l with
  | nil => simpa [eraseA] using h
  | cons p rest ih =>
    rw [keysNodup, List.map_cons, List.nodup_cons] at h
    by_cases hp : p.1 = k
    · simpa [eraseA, hp, keysNodup] using h.2
    · rw [keysNodup, eraseA, if_neg hp, List.map_cons, List.nodup_cons]
      exact ⟨fun hm => h.1 (mem_keys_eraseA hm), ih h.2⟩

theorem not_mem_keys_eraseA {α : Type} {k : String} {l : List (String × α)} (h : keysNodup l) :
    k ∉ (eraseA k l).map Prod.fst := by
  induction l with
  | nil => simp [eraseA]
  | cons p rest ih =>
    rw [keysNodup, List.map_cons, List.nodup_cons] at h
    by_cases hp : p.1 = k
    · rw [eraseA, if_pos hp]
      rw [hp] at h
      exact h.1
    · rw [eraseA, if_neg hp, List.map_cons]
      intro hm
      rcases List.mem_cons.mp hm with h1 | h1
      · exact hp h1.symm
      · exact ih h.2 h1

theorem lookupA_eraseA_self {α : Type} (k : String) {l : List (String × α)} (h : keysNodup l) :
    lookupA k (eraseA k l) = none :=
  lookupA_eq_none_iff.mpr (not_mem_keys_eraseA h)

theorem mem_keys_setA {α : Type} {k k' : String} {v : α} {l : List (String × α)} :
    k' ∈ (setA k v l).map Prod.fst ↔ k' = k ∨ k' ∈ l.map Prod.fst := by
  induction l with
  | nil => simp [setA]
  | cons p rest ih =>
    by_cases hp : p.1 = k
    · simp only [setA, if_pos hp, List.map_cons, List.mem_cons]
      rw [hp]
      tauto
    · simp only [setA, if_neg hp, List.map_cons, List.mem_cons, ih]
      tauto

theorem keysNodup_setA {α : Type} (k : String) (v : α) {l : List (String × α)} (h : keysNodup l) :
    keysNodup (setA k v l) := by
  induction l with
  | nil => simp [setA, keysNodup]
  | cons p rest ih =>
    rw [keysNodup, List.map_cons, List.nodup_cons] at h
    by_cases hp : p.1 = k
    · rw [keysNodup, setA, if_pos hp, List.map_cons, List.nodup_cons]
      rw [hp] at h
      exact ⟨h.1, h.2⟩
    · rw [keysNodup, setA, if_neg hp, List.map_cons, List.nodup_cons]
      refine ⟨fun hm => ?_, ih h.2⟩
      rcases mem_keys_setA.mp hm with h1 | h1
      · exact hp h1
      · exact h.1 h1

theorem mem_setA {α : Type} {p : String × α} {k : String} {v : α} {l : List (String × α)} :
    p ∈ setA k v l → p = (k, v) ∨ p ∈ l := by
  induction l with
  | nil => simp [setA]
  | cons q rest ih =>
    by_cases hq : q.1 = k
    · simp only [setA, if_pos hq, List.mem_cons]
      tauto
    · simp only [setA, if_neg hq, List.mem_cons]
      rintro (h | h)
      · exact Or.inr (Or.inl h)
      · rcases ih h with h1 | h1
        · exact Or.inl h1
        · exact Or.inr (Or.inr h1)

theorem mem_eraseA {α : Type} {p : String × α} {k : String} {l : List (String × α)} :
    p ∈ eraseA k l → p ∈ l := by
  induction l with
  | nil => simp [eraseA]
  | cons q rest ih =>
    by_cases hq : q.1 = k
    · simp only [eraseA, if_pos hq, List.mem_cons]
      tauto
    · simp only [eraseA, if_neg hq, List.mem_cons]
      rintro (h | h)
      · exact Or.inl h
      · exact Or.inr (ih h)

theorem lookupA_mem {α : Type} {k : String} {v : α} {l : List (String × α)} :
    lookupA k l = some v → (k, v) ∈ l := by
  induction l with
  | nil => simp [lookupA]
  | cons p rest ih =>
    by_cases hp : p.1 = k
    · rw [lookupA, if_pos hp]
      intro h
      have hpv : p = (k, v) := by
        cases p
        simp only [Option.some.injEq] at h
        simp_all
      rw [← hpv]
      exact List.mem_cons_self p rest
    · rw [lookupA, if_neg hp]
      intro h
      exact List.mem_cons.mpr (Or.inr (ih h))

theorem mem_lookupA {α : Type} {k : String} {v : α} {l : List (String × α)} (hn : keysNodup l) :
    (k, v) ∈ l → lookupA k l = some v := by
  induction l with
  | nil => simp
  | cons p rest ih =>
    rw [keysNodup, List.map_cons, List.nodup_cons] at hn
    intro hm
    rcases List.mem_cons.mp hm with h1 | h1
    · rw [← h1, lookupA, if_pos rfl]
    · have hk : k ∈ rest.map Prod.fst := List.mem_map.mpr ⟨(k, v), h1, rfl⟩
      have hp : p.1 ≠ k := fun he => hn.1 (he ▸ hk)
      rw [lookupA, if_neg hp]
      exact ih hn.2 h1

theorem lookupA_append_left {α : Type} {k : String} {v : α} {l m : List (String × α)}
    (h : lookupA k l = some v) : lookupA k (l ++ m) = some v := by
  induction l with
  | nil => simp [lookupA] at h
  | cons p rest ih =>
    by_cases hp : p.1 = k
    · rw [lookupA, if_pos hp] at h
      rw [List.cons_append, lookupA, if_pos hp]
      exact h
    · rw [lookupA, if_neg hp] at h
      rw [List.cons_append, lookupA, if_neg hp]
      exact ih h

theorem lookupA_append_right {α : Type} {k : String} {l m : List (String × α)}
    (h : lookupA k l = none) : lookupA k (l ++ m) = lookupA k m := by
  induction l with
  | nil => simp
  | cons p rest ih =>
    by_cases hp : p.1 = k
    · rw [lookupA, if_pos hp] at h
      exact absurd h (by simp)
    · rw [lookupA, if_neg hp] at h
      rw [List.cons_append, lookupA, if_neg hp]
      exact ih h

/-! ## Sorting and pair-listing lemmas -/

theorem insertByKey_perm {α : Type} (p : String × α) (l : List (String × α)) :
    List.Perm (insertByKey p l) (p :: l) := by
  induction l with
  | nil => exact List.Perm.refl _
  | cons q rest ih =>
    by_cases h : strLe p.1 q.1 = true
    · rw [insertByKey, if_pos h]
    · rw [insertByKey, if_neg h]
      exact List.Perm.trans (List.Perm.cons q ih) (List.Perm.swap p q rest)

theorem sortByKey_perm {α : Type} (l : List (String × α)) : List.Perm (sortByKey l) l := by
  induction l with
  | nil => exact List.Perm.refl _
  | cons p rest ih =>
    exact List.Perm.trans (insertByKey_perm p (sortByKey rest)) (List.Perm.cons p ih)

theorem mem_sortByKey {α : Type} {q : String × α} {l : List (String × α)} :
    q ∈ sortByKey l ↔ q ∈ l := (sortByKey_perm l).mem_iff

theorem keysNodup_sortByKey {α : Type} {l : List (String × α)} (h : keysNodup l) :
    keysNodup (sortByKey l) := (((sortByKey_perm l).map Prod.fst).nodup_iff).mpr h

theorem mem_clipTrackPairs {L : List (String × ClipNode)} {c t : String} :
    (c, t) ∈ clipTrackPairs L ↔ ∃ clip, (c, clip) ∈ L ∧ t ∈ clip.tracks.map Prod.fst := by
  induction L with
  | nil => simp [clipTrackPairs]
  | cons q rest ih =>
    obtain ⟨cname, clip⟩ := q
    rw [clipTrackPairs]
    simp only [List.mem_append, List.mem_map, ih, List.mem_cons, Prod.mk.injEq]
    constructor
    · rintro (⟨p, hp, he1, he2⟩ | ⟨cl, hcl, ht⟩)
      · exact ⟨clip, Or.inl ⟨he1.symm, rfl⟩, ⟨p, mem_sortByKey.mp hp, he2⟩⟩
      · exact ⟨cl, Or.inr hcl, ht⟩
    · rintro ⟨cl, (⟨rfl, rfl⟩ | hcl), ht⟩
      · obtain ⟨p, hp, hfst⟩ := ht
        exact Or.inl ⟨p, mem_sortByKey.mpr hp, rfl, hfst⟩
      · exact Or.inr ⟨cl, hcl, ht⟩

theorem mem_clipTrackPairs_fst {L : List (String × ClipNode)} {c t : String}
    (h : (c, t) ∈ clipTrackPairs L) : c ∈ L.map Prod.fst := by
  obtain ⟨clip, hc, _⟩ := mem_clipTrackPairs.mp h
  exact List.mem_map.mpr ⟨(c, clip), hc, rfl⟩

theorem nodup_clipTrackPairs {L : List (String × ClipNode)} (h1 : keysNodup L)
    (h2 : ∀ p ∈ L, keysNodup p.2.tracks) : (clipTrackPairs L).Nodup := by
  induction L with
  | nil => simp [clipTrackPairs]
  | cons q rest ih =>
    obtain ⟨cname, clip⟩ := q
    rw [keysNodup, List.map_cons, List.nodup_cons] at h1
    rw [clipTrackPairs, List.nodup_append]
    refine ⟨?_, ih h1.2 (fun p hp => h2 p (List.mem_cons.mpr (Or.inr hp))), ?_⟩
    · have htr : keysNodup clip.tracks := h2 (cname, clip) (List.mem_cons_self _ _)
      have hmm : ((sortByKey clip.tracks).map fun p => (cname, p.1)) =
          ((sortByKey clip.tracks).map Prod.fst).map fun k => (cname, k) := by
        rw [List.map_map]
        rfl
      rw [hmm]
      refine List.Nodup.map ?_ (keysNodup_sortByKey htr)
      intro a b hab
      exact (Prod.mk.injEq _ _ _ _).mp hab |>.2
    · rintro ⟨a, b⟩ hx hx'
      obtain ⟨p, _, hfe⟩ := List.mem_map.mp hx
      have ha : a = cname := ((Prod.mk.injEq _ _ _ _).mp hfe).1.symm
      exact h1.1 (ha ▸ mem_clipTrackPairs_fst hx')

theorem mem_get_all_track_ids {db : DB} (h : DB.WF db) (c t : String) :
    (c, t) ∈ get_all_track_ids db ↔ pairMem db c t = true := by
  have hiff : (c, t) ∈ get_all_track_ids db ↔
      ∃ clip, (c, clip) ∈ db.clips ∧ t ∈ clip.tracks.map Prod.fst := by
    rw [get_all_track_ids, mem_clipTrackPairs]
    constructor
    · rintro ⟨clip, hc, ht⟩
      exact ⟨clip, mem_sortByKey.mp hc, ht⟩
    · rintro ⟨clip, hc, ht⟩
      exact ⟨clip, mem_sortByKey.mpr hc, ht⟩
  rw [hiff]
  constructor
  · rintro ⟨clip, hc, ht⟩
    rw [pairMem, mem_lookupA h.1 hc]
    exact lookupA_isSome_iff.mpr ht
  · intro hpm
    rw [pairMem] at hpm
    cases hl : lookupA c db.clips with
    | none => rw [hl] at hpm; exact absurd hpm (by simp)
    | some clip =>
      rw [hl] at hpm
      exact ⟨clip, lookupA_mem hl, lookupA_isSome_iff.mp hpm⟩

theorem nodup_get_all_track_ids {db : DB} (h : DB.WF db) : (get_all_track_ids db).Nodup := by
  rw [get_all_track_ids]
  refine nodup_clipTrackPairs (keysNodup_sortByKey h.1) ?_
  intro p hp
  exact h.2 p (mem_sortByKey.mp hp)

/-! ## Effect of each primitive write on observations -/

theorem lookupA_append_single_ne {α : Type} {k k' : String} (h : k' ≠ k) (v : α)
    (l : List (String × α)) : lookupA k' (l ++ [(k, v)]) = lookupA k' l := by
  cases hl : lookupA k' l with
  | some w => exact lookupA_append_left hl
  | none => rw [lookupA_append_right hl]; simp [lookupA, Ne.symm h]

theorem lookupA_append_single_self {α : Type} {k : String} (v : α) {l : List (String × α)}
    (h : lookupA k l = none) : lookupA k (l ++ [(k, v)]) = some v := by
  rw [lookupA_append_right h]
  simp [lookupA]

theorem clips_delClip_ne {c c' : String} {db : DB} (h : c' ≠ c) :
    lookupA c' (delClip c db).clips = lookupA c' db.clips := lookupA_eraseA_ne h _

theorem clips_createGroup_ne {c c' : String} {db : DB} (h : c' ≠ c) :
    lookupA c' (createGroup c db).clips = lookupA c' db.clips := by
  cases hl : lookupA c db.clips with
  | some clip => simp [createGroup, hl]
  | none => simp [createGroup, hl, lookupA_append_single_ne h]

theorem clips_setClipAttr_ne {c c' k : String} {v : AttrValue} {db : DB} (h : c' ≠ c) :
    lookupA c' (setClipAttr c k v db).clips = lookupA c' db.clips := by
  cases hl : lookupA c db.clips with
  | none => simp [setClipAttr, hl]
  | some clip => simp [setClipAttr, hl, lookupA_setA_ne h]

theorem clips_setTrackAttr_ne {c c' t k : String} {v : AttrValue} {db : DB} (h : c' ≠ c) :
    lookupA c' (setTrackAttr c t k v db).clips = lookupA c' db.clips := by
  cases hl : lookupA c db.clips with
  | none => simp [setTrackAttr, hl]
  | some clip =>
    cases ht : lookupA t clip.tracks with
    | none => simp [setTrackAttr, hl, ht]
    | some ds => simp [setTrackAttr, hl, ht, lookupA_setA_ne h]

theorem clips_createDataset_ne {c c' t : String} {dims : List Nat} {db : DB} (h : c' ≠ c) :
    lookupA c' (createDataset c t dims db).clips = lookupA c' db.clips := by
  cases hl : lookupA c db.clips with
  | none => simp [createDataset, hl]
  | some clip => simp [createDataset, hl, lookupA_setA_ne h]

theorem clips_writeDatasetData_ne {c c' t : String} {vals : List Int} {db : DB} (h : c' ≠ c) :
    lookupA c' (writeDatasetData c t vals db).clips = lookupA c' db.clips := by
  cases hl : lookupA c db.clips with
  | none => simp [writeDatasetData, hl]
  | some clip =>
    cases ht : lookupA t clip.tracks with
    | none => simp [writeDatasetData, hl, ht]
    | some ds => simp [writeDatasetData, hl, ht, lookupA_setA_ne h]

theorem has_clip_eq_of_clips_eq {db db' : DB} {c : String}
    (h : lookupA c db'.clips = lookupA c db.clips) : has_clip db' c = has_clip db c := by
  simp only [has_clip, h]

theorem pairMem_eq_of_clips_eq {db db' : DB} {c t : String}
    (h : lookupA c db'.clips = lookupA c db.clips) : pairMem db' c t = pairMem db c t := by
  simp only [pairMem, h]

theorem pairMem_setClipAttr {c c' k t : String} {v : AttrValue} {db : DB} :
    pairMem (setClipAttr c k v db) c' t = pairMem db c' t := by
  by_cases h : c' = c
  · subst h
    cases hl : lookupA c' db.clips with
    | none => simp [pairMem, setClipAttr, hl]
    | some clip => simp [pairMem, setClipAttr, hl, lookupA_setA_self]
  · exact pairMem_eq_of_clips_eq (clips_setClipAttr_ne h)

theorem pairMem_setTrackAttr {c c' t t' k : String} {v : AttrValue} {db : DB} :
    pairMem (setTrackAttr c t k v db) c' t' = pairMem db c' t' := by
  by_cases h : c' = c
  · subst h
    cases hl : lookupA c' db.clips with
    | none => simp [pairMem, setTrackAttr, hl]
    | some clip =>
      cases ht : lookupA t clip.tracks with
      | none => simp [pairMem, setTrackAttr, hl, ht]
      | some ds =>
        by_cases h2 : t' = t
        · subst h2
          simp [pairMem, setTrackAttr, hl, ht, lookupA_setA_self]
        · simp [pairMem, setTrackAttr, hl, ht, lookupA_setA_self, lookupA_setA_ne h2]
  · exact pairMem_eq_of_clips_eq (clips_setTrackAttr_ne h)

theorem pairMem_writeDatasetData {c c' t t' : String} {vals : List Int} {db : DB} :
    pairMem (writeDatasetData c t vals db) c' t' = pairMem db c' t' := by
  by_cases h : c' = c
  · subst h
    cases hl : lookupA c' db.clips with
    | none => simp [pairMem, writeDatasetData, hl]
    | some clip =>
      cases ht : lookupA t clip.tracks with
      | none => simp [pairMem, writeDatasetData, hl, ht]
      | some ds =>
        by_cases h2 : t' = t
        · subst h2
          simp [pairMem, writeDatasetData, hl, ht, lookupA_setA_self]
        · simp [pairMem, writeDatasetData, hl, ht, lookupA_setA_self, lookupA_setA_ne h2]
  · exact pairMem_eq_of_clips_eq (clips_writeDatasetData_ne h)

theorem pairMem_delClip {c c' t : String} {db : DB} (hwf : DB.WF db) :
    pairMem (delClip c db) c' t = if c' = c then false else pairMem db c' t := by
  by_cases h : c' = c
  · subst h
    simp [pairMem, delClip, lookupA_eraseA_self c' hwf.1]
  · rw [if_neg h]
    exact pairMem_eq_of_clips_eq (clips_delClip_ne h)

theorem pairMem_createGroup {c c' t : String} {db : DB} (habs : lookupA c db.clips = none) :
    pairMem (createGroup c db) c' t = if c' = c then false else pairMem db c' t := by
  by_cases h : c' = c
  · subst h
    simp [pairMem, createGroup, habs, lookupA_append_single_self _ habs, lookupA]
  · rw [if_neg h]
    exact pairMem_eq_of_clips_eq (clips_createGroup_ne h)

theorem pairMem_createDataset {c c' t t' : String} {dims : List Nat} {db : DB} {clip : ClipNode}
    (hc : lookupA c db.clips = some clip) :
    pairMem (createDataset c t dims db) c' t' =
      if c' = c ∧ t' = t then true else pairMem db c' t' := by
  by_cases h : c' = c
  · subst h
    by_cases h2 : t' = t
    · subst h2
      rw [if_pos (show c' = c' ∧ t' = t' from ⟨rfl, rfl⟩)]
      cases ht : lookupA t' clip.tracks with
      | some ds =>
        simp only [pairMem, createDataset, hc, lookupA_setA_self]
        rw [lookupA_append_left ht]
        rfl
      | none =>
        simp only [pairMem, createDataset, hc, lookupA_setA_self]
        rw [lookupA_append_single_self _ ht]
        rfl
    · rw [if_neg (fun hand => h2 hand.2)]
      simp only [pairMem, createDataset, hc, lookupA_setA_self]
      rw [lookupA_append_single_ne h2]
  · rw [if_neg (fun hand => h hand.1)]
    exact pairMem_eq_of_clips_eq (clips_createDataset_ne h)

theorem has_clip_setClipAttr_other {c c' k : String} {v : AttrValue} {db : DB}
    (hk : k ≠ "finished") : has_clip (setClipAttr c k v db) c' = has_clip db c' := by
  by_cases h : c' = c
  · subst h
    cases hl : lookupA c' db.clips with
    | none => simp [has_clip, setClipAttr, hl]
    | some clip =>
      simp [has_clip, setClipAttr, hl, lookupA_setA_self, lookupA_setA_ne (Ne.symm hk)]
  · exact has_clip_eq_of_clips_eq (clips_setClipAttr_ne h)

theorem has_clip_setTrackAttr {c c' t k : String} {v : AttrValue} {db : DB} :
    has_clip (setTrackAttr c t k v db) c' = has_clip db c' := by
  by_cases h : c' = c
  · subst h
    cases hl : lookupA c' db.clips with
    | none => simp [has_clip, setTrackAttr, hl]
    | some clip =>
      cases ht : lookupA t clip.tracks with
      | none => simp [has_clip, setTrackAttr, hl, ht]
      | some ds => simp [has_clip, setTrackAttr, hl, ht, lookupA_setA_self]
  · exact has_clip_eq_of_clips_eq (clips_setTrackAttr_ne h)

theorem has_clip_createDataset {c c' t : String} {dims : List Nat} {db : DB} :
    has_clip (createDataset c t dims db) c' = has_clip db c' := by
  by_cases h : c' = c
  · subst h
    cases hl : lookupA c' db.clips with
    | none => simp [has_clip, createDataset, hl]
    | some clip => simp [has_clip, createDataset, hl, lookupA_setA_self]
  · exact has_clip_eq_of_clips_eq (clips_createDataset_ne h)

theorem has_clip_writeDatasetData {c c' t : String} {vals : List Int} {db : DB} :
    has_clip (writeDatasetData c t vals db) c' = has_clip db c' := by
  by_cases h : c' = c
  · subst h
    cases hl : lookupA c' db.clips with
    | none => simp [has_clip, writeDatasetData, hl]
    | some clip =>
      cases ht : lookupA t clip.tracks with
      | none => simp [has_clip, writeDatasetData, hl, ht]
      | some ds => simp [has_clip, writeDatasetData, hl, ht, lookupA_setA_self]
  · exact has_clip_eq_of_clips_eq (clips_writeDatasetData_ne h)

theorem has_clip_delClip_false {c : String} {db : DB} (hwf : DB.WF db) :
    has_clip (delClip c db) c = false := by
  simp [has_clip, delClip, lookupA_eraseA_self c hwf.1]

theorem has_clip_createGroup_false {c : String} {db : DB} (h : has_clip db c = false) :
    has_clip (createGroup c db) c = false := by
  cases hl : lookupA c db.clips with
  | some clip => simpa [createGroup, hl] using h
  | none => simp [has_clip, createGroup, hl, lookupA_append_single_self _ hl, lookupA]

theorem has_clip_setClipAttr_finished {c : String} {v : AttrValue} {db : DB} {clip : ClipNode}
    (hc : lookupA c db.clips = some clip) :
    has_clip (setClipAttr c "finished" v db) c = true := by
  simp [has_clip, setClipAttr, hc, lookupA_setA_self]

/-! ## Well-formedness preservation -/

theorem keysNodup_append_single {α : Type} {k : String} {v : α} {l : List (String × α)}
    (h : keysNodup l) (hk : k ∉ l.map Prod.fst) : keysNodup (l ++ [(k, v)]) := by
  rw [keysNodup, List.map_append]
  rw [List.nodup_append]
  exact ⟨h, List.nodup_singleton k, fun a ha hb => by
    simp only [List.map_cons, List.map_nil, List.mem_singleton] at hb
    exact hk (hb ▸ ha)⟩

theorem WF_delClip {c : String} {db : DB} (h : DB.WF db) : DB.WF (delClip c db) :=
  ⟨keysNodup_eraseA c h.1, fun p hp => h.2 p (mem_eraseA hp)⟩

theorem WF_createGroup {c : String} {db : DB} (h : DB.WF db) : DB.WF (createGroup c db) := by
  cases hl : lookupA c db.clips with
  | some clip => simpa [createGroup, hl] using h
  | none =>
    refine ⟨?_, ?_⟩
    · simp only [createGroup, hl]
      exact keysNodup_append_single h.1 (lookupA_eq_none_iff.mp hl)
    · simp only [createGroup, hl]
      intro p hp
      rcases List.mem_append.mp hp with h1 | h1
      · exact h.2 p h1
      · rcases List.mem_singleton.mp h1 with rfl
        exact List.nodup_nil

theorem WF_setClipAttr {c k : String} {v : AttrValue} {db : DB} (h : DB.WF db) :
    DB.WF (setClipAttr c k v db) := by
  cases hl : lookupA c db.clips with
  | none => simpa [setClipAttr, hl] using h
  | some clip =>
    refine ⟨?_, ?_⟩
    · simp only [setClipAttr, hl]
      exact keysNodup_setA _ _ h.1
    · simp only [setClipAttr, hl]
      intro p hp
      rcases mem_setA hp with rfl | h1
      · exact h.2 (c, clip) (lookupA_mem hl)
      · exact h.2 p h1

theorem WF_setTrackAttr {c t k : String} {v : AttrValue} {db : DB} (h : DB.WF db) :
    DB.WF (setTrackAttr c t k v db) := by
  cases hl : lookupA c db.clips with
  | none => simpa [setTrackAttr, hl] using h
  | some clip =>
    cases ht : lookupA t clip.tracks with
    | none => simpa [setTrackAttr, hl, ht] using h
    | some ds =>
      refine ⟨?_, ?_⟩
      · simp only [setTrackAttr, hl, ht]
        exact keysNodup_setA _ _ h.1
      · simp only [setTrackAttr, hl, ht]
        intro p hp
        rcases mem_setA hp with rfl | h1
        · exact keysNodup_setA _ _ (h.2 (c, clip) (lookupA_mem hl))
        · exact h.2 p h1

theorem WF_writeDatasetData {c t : String} {vals : List Int} {db : DB} (h : DB.WF db) :
    DB.WF (writeDatasetData c t vals db) := by
  cases hl : lookupA c db.clips with
  | none => simpa [writeDatasetData, hl] using h
  | some clip =>
    cases ht : lookupA t clip.tracks with
    | none => simpa [writeDatasetData, hl, ht] using h
    | some ds =>
      refine ⟨?_, ?_⟩
      · simp only [writeDatasetData, hl, ht]
        exact keysNodup_setA _ _ h.1
      · simp only [writeDatasetData, hl, ht]
        intro p hp
        rcases mem_setA hp with rfl | h1
        · exact keysNodup_setA _ _ (h.2 (c, clip) (lookupA_mem hl))
        · exact h.2 p h1

theorem WF_createDataset {c t : String} {dims : List Nat} {db : DB} {clip : ClipNode}
    (h : DB.WF db) (hc : lookupA c db.clips = some clip)
    (ht : lookupA t clip.tracks = none) : DB.WF (createDataset c t dims db) := by
  refine ⟨?_, ?_⟩
  · simp only [createDataset, hc]
    exact keysNodup_setA _ _ h.1
  · simp only [createDataset, hc]
    intro p hp
    rcases mem_setA hp with rfl | h1
    · exact keysNodup_append_single (h.2 (c, clip) (lookupA_mem hc)) (lookupA_eq_none_iff.mp ht)
    · exact h.2 p h1

/-! ## Folding write sequences -/

theorem runWrites_cons (w : DB → DB) (ws : List (DB → DB)) (db : DB) :
    runWrites (w :: ws) db = runWrites ws (w db) := rfl

theorem runWrites_nil (db : DB) : runWrites [] db = db := rfl

theorem flushStore_eq (db : DB) : flushStore db = db := rfl

theorem runWrites_append (l1 l2 : List (DB → DB)) (db : DB) :
    runWrites (l1 ++ l2) db = runWrites l2 (runWrites l1 db) := List.foldl_append _ _ _ _

theorem runWrites_obs {α : Type} (obs : DB → α) {ws : List (DB → DB)}
    (h : ∀ w ∈ ws, ∀ d, obs (w d) = obs d) (db : DB) : obs (runWrites ws db) = obs db := by
  induction ws generalizing db with
  | nil => rfl
  | cons w rest ih =>
    rw [runWrites_cons]
    rw [ih (fun x hx => h x (List.mem_cons.mpr (Or.inr hx)))]
    exact h w (List.mem_cons_self _ _) db

theorem runWrites_preserve (P : DB → Prop) {ws : List (DB → DB)}
    (h : ∀ w ∈ ws, ∀ d, P d → P (w d)) {db : DB} (hd : P db) : P (runWrites ws db) := by
  induction ws generalizing db with
  | nil => exact hd
  | cons w rest ih =>
    rw [runWrites_cons]
    exact ih (fun x hx => h x (List.mem_cons.mpr (Or.inr hx))) (h w (List.mem_cons_self _ _) db hd)

/-! ## Shape of the write lists -/

theorem mem_trackerAttrWrites {c : String} {tk : Tracker} {w : DB → DB}
    (h : w ∈ trackerAttrWrites c tk) : ∃ k v, k ≠ "finished" ∧ w = setClipAttr c k v := by
  simp only [trackerAttrWrites, List.mem_cons, List.not_mem_nil, or_false] at h
  rcases h with h | h | h | h | h | h | h | h | h | h
  · exact ⟨"filename", _, by decide, by rw [h]⟩
  · exact ⟨"start_time", _, by decide, by rw [h]⟩
  · exact ⟨"threshold", _, by decide, by rw [h]⟩
  · exact ⟨"confidence", _, by decide, by rw [h]⟩
  · exact ⟨"trap", _, by decide, by rw [h]⟩
  · exact ⟨"event", _, by decide, by rw [h]⟩
  · exact ⟨"average_background_delta", _, by decide, by rw [h]⟩
  · exact ⟨"mean_temp", _, by decide, by rw [h]⟩
  · exact ⟨"max_temp", _, by decide, by rw [h]⟩
  · exact ⟨"min_temp", _, by decide, by rw [h]⟩

theorem mem_recordAttrWrites {c t : String} {rec : TrackRecord} {w : DB → DB}
    (h : w ∈ recordAttrWrites c t rec) : ∃ k v, w = setTrackAttr c t k v := by
  rw [recordAttrWrites] at h
  rcases List.mem_append.mp h with h1 | h1
  · rcases List.mem_append.mp h1 with h2 | h2
    · simp only [List.mem_cons, List.not_mem_nil, or_false] at h2
      rcases h2 with h | h | h | h
      · exact ⟨"id", _, by rw [h]⟩
      · exact ⟨"tag", _, by rw [h]⟩
      · exact ⟨"start_time", _, by rw [h]⟩
      · exact ⟨"end_time", _, by rw [h]⟩
    · obtain ⟨p, _, hw⟩ := List.mem_map.mp h2
      exact ⟨p.1, p.2, hw.symm⟩
  · simp only [List.mem_cons, List.not_mem_nil, or_false] at h1
    rcases h1 with h | h
    · exact ⟨"mass_history", _, by rw [h]⟩
    · exact ⟨"bounds_history", _, by rw [h]⟩

/-! ## Operation-level lemmas: create_clip -/

theorem create_clip_ok_inv {db db' : DB} {c : String} {tk : Option Tracker} {ow : Bool}
    (h : create_clip db c tk ow = .ok db') :
    db' = runWrites (createClipWrites c tk ow) db ∧ (ow = false → lookupA c db.clips = none) := by
  simp only [create_clip] at h
  by_cases hcond : (!ow && (lookupA c db.clips).isSome) = true
  · rw [if_pos hcond] at h
    exact absurd h (by simp)
  · rw [if_neg hcond] at h
    refine ⟨(Except.ok.inj h).symm, fun how => ?_⟩
    subst how
    cases hE : lookupA c db.clips with
    | none => rfl
    | some clip => rw [hE] at hcond; simp at hcond

theorem mem_trackerWritesOpt {c : String} {tk : Option Tracker} {w : DB → DB}
    (h : w ∈ trackerWritesOpt c tk) : ∃ k v, k ≠ "finished" ∧ w = setClipAttr c k v := by
  cases tk with
  | none => simp [trackerWritesOpt] at h
  | some tk' => exact mem_trackerAttrWrites h

theorem mem_recordWritesOpt {c t : String} {rec : Option TrackRecord} {w : DB → DB}
    (h : w ∈ recordWritesOpt c t rec) : ∃ k v, w = setTrackAttr c t k v := by
  cases rec with
  | none => simp [recordWritesOpt] at h
  | some r => exact mem_recordAttrWrites h

theorem createClipWrites_WF {c : String} {tk : Option Tracker} {ow : Bool} :
    ∀ w ∈ createClipWrites c tk ow, ∀ d, DB.WF d → DB.WF (w d) := by
  intro w hw d hwf
  rw [createClipWrites] at hw
  rcases List.mem_append.mp hw with h1 | h1
  · rw [createClipFront] at h1
    rcases List.mem_append.mp h1 with h2 | h2
    · rcases List.mem_append.mp h2 with h3 | h3
      · rcases List.mem_append.mp h3 with h4 | h4
        · cases ow
          · simp at h4
          · simp only [if_true] at h4
            simp only [List.mem_singleton] at h4
            subst h4
            exact WF_delClip hwf
        · rcases List.mem_singleton.mp h4 with rfl
          exact WF_createGroup hwf
      · obtain ⟨k, v, _, rfl⟩ := mem_trackerWritesOpt h3
        exact WF_setClipAttr hwf
    · rcases List.mem_singleton.mp h2 with rfl
      exact hwf
  · rcases List.mem_singleton.mp h1 with rfl
    exact WF_setClipAttr hwf

theorem createClipWrites_other {c c' : String} {tk : Option Tracker} {ow : Bool} (hne : c' ≠ c) :
    ∀ w ∈ createClipWrites c tk ow, ∀ d, lookupA c' (w d).clips = lookupA c' d.clips := by
  intro w hw d
  rw [createClipWrites] at hw
  rcases List.mem_append.mp hw with h1 | h1
  · rw [createClipFront] at h1
    rcases List.mem_append.mp h1 with h2 | h2
    · rcases List.mem_append.mp h2 with h3 | h3
      · rcases List.mem_append.mp h3 with h4 | h4
        · cases ow
          · simp at h4
          · simp only [if_true] at h4
            simp only [List.mem_singleton] at h4
            subst h4
            exact clips_delClip_ne hne
        · rcases List.mem_singleton.mp h4 with rfl
          exact clips_createGroup_ne hne
      · obtain ⟨k, v, _, rfl⟩ := mem_trackerWritesOpt h3
        exact clips_setClipAttr_ne hne
    · rcases List.mem_singleton.mp h2 with rfl
      rfl
  · rcases List.mem_singleton.mp h1 with rfl
    exact clips_setClipAttr_ne hne

theorem createClipFront_keeps_unfinished {c : String} {tk : Option Tracker} {ow : Bool} :
    ∀ w ∈ createClipFront c tk ow, ∀ d,
      (has_clip d c = false ∧ DB.WF d) → (has_clip (w d) c = false ∧ DB.WF (w d)) := by
  intro w hw d hd
  obtain ⟨hf, hwf⟩ := hd
  rw [createClipFront] at hw
  rcases List.mem_append.mp hw with h2 | h2
  · rcases List.mem_append.mp h2 with h3 | h3
    · rcases List.mem_append.mp h3 with h4 | h4
      · cases ow
        · simp at h4
        · simp only [if_true] at h4
          simp only [List.mem_singleton] at h4
          subst h4
          exact ⟨has_clip_delClip_false hwf, WF_delClip hwf⟩
      · rcases List.mem_singleton.mp h4 with rfl
        exact ⟨has_clip_createGroup_false hf, WF_createGroup hwf⟩
    · obtain ⟨k, v, hk, rfl⟩ := mem_trackerWritesOpt h3
      exact ⟨(has_clip_setClipAttr_other hk).trans hf, WF_setClipAttr hwf⟩
  · rcases List.mem_singleton.mp h2 with rfl
    exact ⟨hf, hwf⟩

theorem createClipTail_pairMem {c : String} {tk : Option Tracker} :
    ∀ w ∈ (trackerWritesOpt c tk ++ [flushStore]) ++
           [setClipAttr c "finished" (.boolean true)],
      ∀ d c₀ t₀, pairMem (w d) c₀ t₀ = pairMem d c₀ t₀ := by
  intro w hw d c₀ t₀
  rcases List.mem_append.mp hw with h1 | h1
  · rcases List.mem_append.mp h1 with h2 | h2
    · obtain ⟨k, v, _, rfl⟩ := mem_trackerWritesOpt h2
      exact pairMem_setClipAttr
    · rcases List.mem_singleton.mp h2 with rfl
      rfl
  · rcases List.mem_singleton.mp h1 with rfl
    exact pairMem_setClipAttr

theorem create_clip_pairMem {db db' : DB} {c : String} {tk : Option Tracker} {ow : Bool}
    (h : create_clip db c tk ow = .ok db') (hwf : DB.WF db) (c' t : String) :
    pairMem db' c' t = if c' = c then false else pairMem db c' t := by
  obtain ⟨rfl, hguard⟩ := create_clip_ok_inv h
  cases ow with
  | true =>
    have hrw : runWrites (createClipWrites c tk true) db
        = runWrites ((trackerWritesOpt c tk ++ [flushStore]) ++
                     [setClipAttr c "finished" (.boolean true)])
            (createGroup c (delClip c db)) := rfl
    rw [hrw,
      runWrites_obs (fun d => pairMem d c' t) (fun w hw d => createClipTail_pairMem w hw d c' t) _,
      pairMem_createGroup
        (show lookupA c (delClip c db).clips = none from lookupA_eraseA_self c hwf.1)]
    by_cases hcc : c' = c
    · rw [if_pos hcc, if_pos hcc]
    · rw [if_neg hcc, if_neg hcc, pairMem_eq_of_clips_eq (clips_delClip_ne hcc)]
  | false =>
    have habs := hguard rfl
    have hrw : runWrites (createClipWrites c tk false) db
        = runWrites ((trackerWritesOpt c tk ++ [flushStore]) ++
                     [setClipAttr c "finished" (.boolean true)])
            (createGroup c db) := rfl
    rw [hrw,
      runWrites_obs (fun d => pairMem d c' t) (fun w hw d => createClipTail_pairMem w hw d c' t) _]
    exact pairMem_createGroup habs

theorem clipTracks_setClipAttr {c c' k : String} {v : AttrValue} {db : DB} :
    clipTracks (setClipAttr c k v db) c' = clipTracks db c' := by
  by_cases h : c' = c
  · subst h
    cases hl : lookupA c' db.clips with
    | none => simp [clipTracks, setClipAttr, hl]
    | some clip => simp [clipTracks, setClipAttr, hl, lookupA_setA_self]
  · simp only [clipTracks, clips_setClipAttr_ne h]

theorem clipTracks_createGroup_absent {c : String} {db : DB}
    (habs : lookupA c db.clips = none) : clipTracks (createGroup c db) c = some [] := by
  simp [clipTracks, createGroup, habs, lookupA_append_single_self _ habs]

theorem createClipTail_clipTracks {c : String} {tk : Option Tracker} :
    ∀ w ∈ (trackerWritesOpt c tk ++ [flushStore]) ++
           [setClipAttr c "finished" (.boolean true)],
      ∀ d, clipTracks (w d) c = clipTracks d c := by
  intro w hw d
  rcases List.mem_append.mp hw with h1 | h1
  · rcases List.mem_append.mp h1 with h2 | h2
    · obtain ⟨k, v, _, rfl⟩ := mem_trackerWritesOpt h2
      exact clipTracks_setClipAttr
    · rcases List.mem_singleton.mp h2 with rfl
      rfl
  · rcases List.mem_singleton.mp h1 with rfl
    exact clipTracks_setClipAttr

theorem create_clip_clipTracks {db db' : DB} {c : String} {tk : Option Tracker} {ow : Bool}
    (h : create_clip db c tk ow = .ok db') (hwf : DB.WF db) :
    clipTracks db' c = some [] := by
  obtain ⟨rfl, hguard⟩ := create_clip_ok_inv h
  cases ow with
  | true =>
    have hrw : runWrites (createClipWrites c tk true) db
        = runWrites ((trackerWritesOpt c tk ++ [flushStore]) ++
                     [setClipAttr c "finished" (.boolean true)])
            (createGroup c (delClip c db)) := rfl
    rw [hrw, runWrites_obs (fun d => clipTracks d c) (fun w hw d => createClipTail_clipTracks w hw d) _]
    exact clipTracks_createGroup_absent
      (show lookupA c (delClip c db).clips = none from lookupA_eraseA_self c hwf.1)
  | false =>
    have habs := hguard rfl
    have hrw : runWrites (createClipWrites c tk false) db
        = runWrites ((trackerWritesOpt c tk ++ [flushStore]) ++
                     [setClipAttr c "finished" (.boolean true)])
            (createGroup c db) := rfl
    rw [hrw, runWrites_obs (fun d => clipTracks d c) (fun w hw d => createClipTail_clipTracks w hw d) _]
    exact clipTracks_createGroup_absent habs

theorem get_clip_meta_setClipAttr_self {c k : String} {v : AttrValue} {db : DB} :
    get_clip_meta (setClipAttr c k v db) c = (get_clip_meta db c).map (setA k v) := by
  cases hl : lookupA c db.clips with
  | none => simp [get_clip_meta, setClipAttr, hl, Except.map]
  | some clip => simp [get_clip_meta, setClipAttr, hl, lookupA_setA_self, Except.map]

theorem create_clip_none_meta {db db' : DB} {c : String}
    (h : create_clip db c none true = .ok db') (hwf : DB.WF db) :
    get_clip_meta db' c = .ok [("finished", AttrValue.boolean true)] := by
  obtain ⟨rfl, _⟩ := create_clip_ok_inv h
  have hrw : runWrites (createClipWrites c none true) db
      = setClipAttr c "finished" (.boolean true) (flushStore (createGroup c (delClip c db))) := rfl
  rw [hrw]
  have habs : lookupA c (delClip c db).clips = none := lookupA_eraseA_self c hwf.1
  have h1 : get_clip_meta (createGroup c (delClip c db)) c = .ok [] := by
    simp [get_clip_meta, createGroup, habs, lookupA_append_single_self _ habs]
  have h2 : get_clip_meta (flushStore (createGroup c (delClip c db))) c = .ok [] := h1
  rw [get_clip_meta_setClipAttr_self, h2]
  rfl

/-! ## Operation-level lemmas: add_track -/

theorem add_track_ok_inv {db db' : DB} {c t : String} {A : NDArray} {rec : Option TrackRecord}
    (h : add_track db c t A rec = .ok db') :
    db' = runWrites (addTrackWrites c t A rec) db ∧
      (∃ clip, lookupA c db.clips = some clip ∧ lookupA t clip.tracks = none) ∧
      ∃ f ch hh w, A.shape = [f, ch, hh, w] := by
  obtain ⟨shape, data⟩ := A
  rcases shape with _ | ⟨a, _ | ⟨b, _ | ⟨cc, _ | ⟨d, _ | ⟨e, rest⟩⟩⟩⟩⟩
  · simp [add_track] at h
  · simp [add_track] at h
  · simp [add_track] at h
  · simp [add_track] at h
  · cases hc : lookupA c db.clips with
    | none => simp [add_track, hc] at h
    | some clip =>
      cases hE : lookupA t clip.tracks with
      | some ds => simp [add_track, hc, hE] at h
      | none =>
        simp only [add_track, hc, hE, Option.isSome_none, Bool.false_eq_true, if_false,
          Except.ok.injEq] at h
        exact ⟨h.symm, ⟨clip, rfl, hE⟩, ⟨a, b, cc, d, rfl⟩⟩
  · simp [add_track] at h

theorem addTrackTail_pairMem {c t : String} {vals : List Int} {rec : Option TrackRecord} :
    ∀ w ∈ writeDatasetData c t vals :: ((recordWritesOpt c t rec ++ [flushStore]) ++
           [setClipAttr c "finished" (.boolean true)]),
      ∀ d c₀ t₀, pairMem (w d) c₀ t₀ = pairMem d c₀ t₀ := by
  intro w hw d c₀ t₀
  rcases List.mem_cons.mp hw with rfl | h1
  · exact pairMem_writeDatasetData
  · rcases List.mem_append.mp h1 with h2 | h2
    · rcases List.mem_append.mp h2 with h3 | h3
      · obtain ⟨k, v, rfl⟩ := mem_recordWritesOpt h3
        exact pairMem_setTrackAttr
      · rcases List.mem_singleton.mp h3 with rfl
        rfl
    · rcases List.mem_singleton.mp h2 with rfl
      exact pairMem_setClipAttr

theorem add_track_pairMem {db db' : DB} {c t : String} {A : NDArray} {rec : Option TrackRecord}
    (h : add_track db c t A rec = .ok db') (c' t' : String) :
    pairMem db' c' t' = if c' = c ∧ t' = t then true else pairMem db c' t' := by
  obtain ⟨rfl, ⟨clip, hc, htn⟩, _⟩ := add_track_ok_inv h
  have hrw : runWrites (addTrackWrites c t A rec) db
      = runWrites (writeDatasetData c t A.data :: ((recordWritesOpt c t rec ++ [flushStore]) ++
          [setClipAttr c "finished" (.boolean true)])) (createDataset c t A.shape db) := rfl
  rw [hrw,
    runWrites_obs (fun d => pairMem d c' t') (fun w hw d => addTrackTail_pairMem w hw d c' t') _]
  exact pairMem_createDataset hc

theorem add_track_WF {db db' : DB} {c t : String} {A : NDArray} {rec : Option TrackRecord}
    (h : add_track db c t A rec = .ok db') (hwf : DB.WF db) : DB.WF db' := by
  obtain ⟨rfl, ⟨clip, hc, htn⟩, _⟩ := add_track_ok_inv h
  have hrw : runWrites (addTrackWrites c t A rec) db
      = runWrites (writeDatasetData c t A.data :: ((recordWritesOpt c t rec ++ [flushStore]) ++
          [setClipAttr c "finished" (.boolean true)])) (createDataset c t A.shape db) := rfl
  rw [hrw]
  refine runWrites_preserve (fun d => DB.WF d) ?_ (WF_createDataset hwf hc htn)
  intro w hw d hd
  rcases List.mem_cons.mp hw with rfl | h1
  · exact WF_writeDatasetData hd
  · rcases List.mem_append.mp h1 with h2 | h2
    · rcases List.mem_append.mp h2 with h3 | h3
      · obtain ⟨k, v, rfl⟩ := mem_recordWritesOpt h3
        exact WF_setTrackAttr hd
      · rcases List.mem_singleton.mp h3 with rfl
        exact hd
    · rcases List.mem_singleton.mp h2 with rfl
      exact WF_setClipAttr hd

theorem create_clip_WF {db db' : DB} {c : String} {tk : Option Tracker} {ow : Bool}
    (h : create_clip db c tk ow = .ok db') (hwf : DB.WF db) : DB.WF db' := by
  obtain ⟨rfl, -⟩ := create_clip_ok_inv h
  exact runWrites_preserve (fun d => DB.WF d) createClipWrites_WF hwf

/-! ## Fault injection -/

theorem addTrackFront_has_clip {c t : String} {A : NDArray} {rec : Option TrackRecord} :
    ∀ w ∈ addTrackFront c t A rec, ∀ d c', has_clip (w d) c' = has_clip d c' := by
  intro w hw d c'
  rw [addTrackFront] at hw
  rcases List.mem_append.mp hw with h1 | h1
  · rcases List.mem_append.mp h1 with h2 | h2
    · simp only [List.mem_cons, List.not_mem_nil, or_false] at h2
      rcases h2 with rfl | rfl
      · exact has_clip_createDataset
      · exact has_clip_writeDatasetData
    · obtain ⟨k, v, rfl⟩ := mem_recordWritesOpt h2
      exact has_clip_setTrackAttr
  · rcases List.mem_singleton.mp h1 with rfl
    rfl

theorem add_track_faulted_has_clip {db : DB} {c t : String} {A : NDArray}
    {rec : Option TrackRecord} {k : Nat} (hk : k ≤ (addTrackFront c t A rec).length)
    (c' : String) : has_clip (add_track_faulted db c t A rec k) c' = has_clip db c' := by
  rw [add_track_faulted, addTrackWrites, List.take_append_of_le_length hk]
  exact runWrites_obs (fun d => has_clip d c')
    (fun w hw d => addTrackFront_has_clip w (List.take_subset _ _ hw) d c') db

theorem create_clip_faulted_unfinished {db : DB} {c : String} {tk : Option Tracker}
    {ow : Bool} {k : Nat} (hwf : DB.WF db) (hf : has_clip db c = false)
    (hk : k ≤ (createClipFront c tk ow).length) :
    has_clip (create_clip_faulted db c tk ow k) c = false := by
  rw [create_clip_faulted, createClipWrites, List.take_append_of_le_length hk]
  exact (runWrites_preserve (fun d => has_clip d c = false ∧ DB.WF d)
    (fun w hw => createClipFront_keeps_unfinished w (List.take_subset _ _ hw)) ⟨hf, hwf⟩).1

theorem create_clip_faulted_other {db : DB} {c c' : String} {tk : Option Tracker}
    {ow : Bool} (hne : c' ≠ c) (k : Nat) :
    has_clip (create_clip_faulted db c tk ow k) c' = has_clip db c' := by
  rw [create_clip_faulted]
  exact has_clip_eq_of_clips_eq (runWrites_obs (fun d => lookupA c' d.clips)
    (fun w hw d => createClipWrites_other hne w (List.take_subset _ _ hw) d) db)

/-! ## Track metadata through the add_track writes -/

theorem get_track_meta_setTrackAttr_self {c t k : String} {v : AttrValue} {db : DB} :
    get_track_meta (setTrackAttr c t k v db) c t = (get_track_meta db c t).map (setA k v) := by
  cases hl : lookupA c db.clips with
  | none => simp [get_track_meta, setTrackAttr, hl, Except.map]
  | some clip =>
    cases ht : lookupA t clip.tracks with
    | none => simp [get_track_meta, setTrackAttr, hl, ht, Except.map]
    | some ds => simp [get_track_meta, setTrackAttr, hl, ht, lookupA_setA_self, Except.map]

theorem get_track_meta_setClipAttr {c t k : String} {v : AttrValue} {db : DB} :
    get_track_meta (setClipAttr c k v db) c t = get_track_meta db c t := by
  cases hl : lookupA c db.clips with
  | none => simp [get_track_meta, setClipAttr, hl]
  | some clip => simp [get_track_meta, setClipAttr, hl, lookupA_setA_self]

theorem get_track_meta_writeDatasetData_self {c t : String} {vals : List Int} {db : DB} :
    get_track_meta (writeDatasetData c t vals db) c t = get_track_meta db c t := by
  cases hl : lookupA c db.clips with
  | none => simp [get_track_meta, writeDatasetData, hl]
  | some clip =>
    cases ht : lookupA t clip.tracks with
    | none => simp [get_track_meta, writeDatasetData, hl, ht]
    | some ds => simp [get_track_meta, writeDatasetData, hl, ht, lookupA_setA_self]

theorem get_track_meta_createDataset {c t : String} {dims : List Nat} {db : DB} {clip : ClipNode}
    (hc : lookupA c db.clips = some clip) (ht : lookupA t clip.tracks = none) :
    get_track_meta (createDataset c t dims db) c t = .ok [] := by
  simp [get_track_meta, createDataset, hc, lookupA_setA_self, lookupA_append_single_self _ ht]

theorem get_track_meta_statsWrites {c t : String} (stats : List (String × AttrValue)) (db : DB) :
    get_track_meta (runWrites (stats.map fun p => setTrackAttr c t p.1 p.2) db) c t
      = (get_track_meta db c t).map (fun attrs => stats.foldl (fun a p => setA p.1 p.2 a) attrs) := by
  induction stats generalizing db with
  | nil => cases hE : get_track_meta db c t <;> simp [runWrites, Except.map, hE]
  | cons p rest ih =>
    rw [List.map_cons, runWrites_cons, ih, get_track_meta_setTrackAttr_self]
    cases hE : get_track_meta db c t <;> simp [Except.map]

theorem add_track_meta {db db' : DB} {c t : String} {A : NDArray} {rec : TrackRecord}
    (h : add_track db c t A (some rec) = .ok db') :
    get_track_meta db' c t = .ok (setA "bounds_history" (.numArr2 (boundsHistory rec))
      (setA "mass_history" (.numArr (massHistory rec))
        (rec.stats.foldl (fun a p => setA p.1 p.2 a)
          (setA "end_time" (.str rec.end_time) (setA "start_time" (.str rec.start_time)
            (setA "tag" (.str rec.tag) (setA "id" (.num rec.id) []))))))) := by
  obtain ⟨rfl, ⟨clip, hc, htn⟩, _⟩ := add_track_ok_inv h
  have e1 : addTrackWrites c t A (some rec)
      = addTrackFront c t A (some rec) ++ [setClipAttr c "finished" (.boolean true)] := rfl
  have e2 : addTrackFront c t A (some rec)
      = ([createDataset c t A.shape, writeDatasetData c t A.data] ++
         recordWritesOpt c t (some rec)) ++ [flushStore] := rfl
  have e3 : recordWritesOpt c t (some rec)
      = ([ setTrackAttr c t "id" (.num rec.id),
           setTrackAttr c t "tag" (.str rec.tag),
           setTrackAttr c t "start_time" (.str rec.start_time),
           setTrackAttr c t "end_time" (.str rec.end_time) ] ++
         rec.stats.map (fun p => setTrackAttr c t p.1 p.2)) ++
        [ setTrackAttr c t "mass_history" (.numArr (massHistory rec)),
          setTrackAttr c t "bounds_history" (.numArr2 (boundsHistory rec)) ] := rfl
  rw [e1, runWrites_append, e2, runWrites_append, runWrites_append, e3, runWrites_append,
    runWrites_append]
  have e4 : ∀ d : DB, runWrites [setClipAttr c "finished" (.boolean true)] d
      = setClipAttr c "finished" (.boolean true) d := fun d => rfl
  rw [e4]
  rw [get_track_meta_setClipAttr]
  have e5 : ∀ d : DB, runWrites [flushStore] d = d := fun d => rfl
  rw [e5]
  have e6 : ∀ d : DB,
      runWrites [ setTrackAttr c t "mass_history" (.numArr (massHistory rec)),
                  setTrackAttr c t "bounds_history" (.numArr2 (boundsHistory rec)) ] d
      = setTrackAttr c t "bounds_history" (.numArr2 (boundsHistory rec))
          (setTrackAttr c t "mass_history" (.numArr (massHistory rec)) d) := fun d => rfl
  rw [e6, get_track_meta_setTrackAttr_self, get_track_meta_setTrackAttr_self,
    get_track_meta_statsWrites]
  have e7 : ∀ d : DB,
      runWrites [ setTrackAttr c t "id" (.num rec.id),
                  setTrackAttr c t "tag" (.str rec.tag),
                  setTrackAttr c t "start_time" (.str rec.start_time),
                  setTrackAttr c t "end_time" (.str rec.end_time) ] d
      = setTrackAttr c t "end_time" (.str rec.end_time)
          (setTrackAttr c t "start_time" (.str rec.start_time)
            (setTrackAttr c t "tag" (.str rec.tag)
              (setTrackAttr c t "id" (.num rec.id) d))) := fun d => rfl
  rw [e7, get_track_meta_setTrackAttr_self, get_track_meta_setTrackAttr_self,
    get_track_meta_setTrackAttr_self, get_track_meta_setTrackAttr_self]
  have e8 : ∀ d : DB, runWrites [createDataset c t A.shape, writeDatasetData c t A.data] d
      = writeDatasetData c t A.data (createDataset c t A.shape d) := fun d => rfl
  rw [e8, get_track_meta_writeDatasetData_self, get_track_meta_createDataset hc htn]
  simp [Except.map]

theorem wrapInt16_bounds (v : Int) : -32768 ≤ wrapInt16 v ∧ wrapInt16 v < 32768 := by
  rw [wrapInt16]
  have h1 : 0 ≤ (v + 32768) % 65536 := Int.emod_nonneg _ (by norm_num)
  have h2 : (v + 32768) % 65536 < 65536 := Int.emod_lt_of_pos _ (by norm_num)
  omega

theorem wrapInt32_bounds (v : Int) :
    -2147483648 ≤ wrapInt32 v ∧ wrapInt32 v < 2147483648 := by
  rw [wrapInt32]
  have h1 : 0 ≤ (v + 2147483648) % 4294967296 := Int.emod_nonneg _ (by norm_num)
  have h2 : (v + 2147483648) % 4294967296 < 4294967296 := Int.emod_lt_of_pos _ (by norm_num)
  omega

/-! ## Operation histories -/

theorem addTrackWrites_other {c c' t : String} {A : NDArray} {rec : Option TrackRecord}
    (hne : c' ≠ c) : ∀ w ∈ addTrackWrites c t A rec, ∀ d,
      lookupA c' (w d).clips = lookupA c' d.clips := by
  intro w hw d
  rw [addTrackWrites] at hw
  rcases List.mem_append.mp hw with h1 | h1
  · rw [addTrackFront] at h1
    rcases List.mem_append.mp h1 with h2 | h2
    · rcases List.mem_append.mp h2 with h3 | h3
      · simp only [List.mem_cons, List.not_mem_nil, or_false] at h3
        rcases h3 with rfl | rfl
        · exact clips_createDataset_ne hne
        · exact clips_writeDatasetData_ne hne
      · obtain ⟨k, v, rfl⟩ := mem_recordWritesOpt h3
        exact clips_setTrackAttr_ne hne
    · rcases List.mem_singleton.mp h2 with rfl
      rfl
  · rcases List.mem_singleton.mp h1 with rfl
    exact clips_setClipAttr_ne hne

theorem runOps_pairMem (ops : List Op) :
    ∀ db, DB.WF db → opsOk db ops = true →
      DB.WF (runOps db ops) ∧
      ∀ c t, pairMem (runOps db ops) c t = livePairFrom (pairMem db c t) ops c t := by
  induction ops with
  | nil => exact fun db hwf _ => ⟨hwf, fun c t => rfl⟩
  | cons op rest ih =>
    intro db hwf hok
    rw [opsOk] at hok
    cases hr : runOp db op with
    | error e => rw [hr] at hok; simp at hok
    | ok db1 =>
      rw [hr] at hok
      have happ : applyOp db op = db1 := by rw [applyOp, hr]
      have hwf1 : DB.WF db1 := by
        cases op with
        | createClipOp c' tk ow => exact create_clip_WF hr hwf
        | addTrackOp c' t' A rec => exact add_track_WF hr hwf
      rw [runOps, happ]
      obtain ⟨hwf2, hmem⟩ := ih db1 hwf1 hok
      refine ⟨hwf2, fun c t => ?_⟩
      rw [hmem c t]
      cases op with
      | createClipOp c' tk ow =>
        rw [livePairFrom]
        congr 1
        exact create_clip_pairMem hr hwf c t
      | addTrackOp c' t' A rec =>
        rw [livePairFrom]
        congr 1
        exact add_track_pairMem hr c t

theorem runOps_not_created (ops : List Op) :
    ∀ db c, lookupA c db.clips = none → (∀ op ∈ ops, createsClip op c = false) →
      lookupA c (runOps db ops).clips = none := by
  induction ops with
  | nil => exact fun db c h _ => h
  | cons op rest ih =>
    intro db c h hops
    rw [runOps]
    refine ih _ c ?_ (fun o ho => hops o (List.mem_cons.mpr (Or.inr ho)))
    have hop := hops op (List.mem_cons_self _ _)
    cases op with
    | createClipOp c' tk ow =>
      have hne : c ≠ c' := by
        rw [createsClip] at hop
        intro he
        subst he
        simp at hop
      rw [applyOp]
      cases hr : runOp db (.createClipOp c' tk ow) with
      | error e => exact h
      | ok db1 =>
        obtain ⟨rfl, -⟩ := create_clip_ok_inv hr
        rw [runWrites_obs (fun d => lookupA c d.clips)
          (fun w hw d => createClipWrites_other hne w hw d) db]
        exact h
    | addTrackOp c' t' A rec =>
      rw [applyOp]
      cases hr : runOp db (.addTrackOp c' t' A rec) with
      | error e => exact h
      | ok db1 =>
        obtain ⟨rfl, ⟨clip, hc, -⟩, -⟩ := add_track_ok_inv hr
        by_cases hne : c = c'
        · subst hne
          rw [hc] at h
          exact absurd h (by simp)
        · rw [runWrites_obs (fun d => lookupA c d.clips)
            (fun w hw d => addTrackWrites_other hne w hw d) db]
          exact h

theorem has_clip_iff {db : DB} (hwf : DB.WF db) (c : String) :
    has_clip db c = true ↔
      ∃ clip, (c, clip) ∈ db.clips ∧ ∃ v, ("finished", v) ∈ clip.attrs := by
  constructor
  · intro h
    cases hl : lookupA c db.clips with
    | none => simp only [has_clip, hl] at h; exact absurd h (by simp)
    | some clip =>
      simp only [has_clip, hl] at h
      obtain ⟨v, hv⟩ := Option.isSome_iff_exists.mp h
      exact ⟨clip, lookupA_mem hl, v, lookupA_mem hv⟩
  · rintro ⟨clip, hm, v, hv⟩
    have hl : lookupA c db.clips = some clip := mem_lookupA hwf.1 hm
    have hk : "finished" ∈ clip.attrs.map Prod.fst := List.mem_map.mpr ⟨("finished", v), hv, rfl⟩
    simp only [has_clip, hl]
    exact lookupA_isSome_iff.mpr hk

theorem has_clip_false_of_absent {db : DB} {c : String} (h : lookupA c db.clips = none) :
    has_clip db c = false := by
  simp [has_clip, h]

theorem emptyDB_WF : DB.WF emptyDB := ⟨List.nodup_nil, fun p hp => absurd hp (List.not_mem_nil p)⟩

/-! ## The locking gateway: mutual exclusion -/

theorem holdsLock_of_open {p : List LEvent} (h : sessionOpen p = true) : holdsLock p = true := by
  have hlen : p.length = 2 := of_decide_eq_true h
  rw [holdsLock]
  simp [hlen]

theorem lockInv_init : LockInv initLock := by
  refine ⟨Or.inl rfl, Or.inl rfl, ?_, ?_, ?_⟩ <;> decide

theorem lockInv_step {s s' : LockSt} (hs : LockInv s) (h : LStep s s') : LockInv s' := by
  obtain ⟨hp1, hp2, hl1, hl2, hx⟩ := hs
  cases h with
  | acq1 r hpe hle =>
    have hr : r = [.openF, .closeF, .rel] := by
      rcases hp1 with h1 | h1 | h1 | h1 | h1 <;> rw [h1] at hpe <;>
        first
        | (injection hpe with he ht; exact ht.symm)
        | (exfalso; simp [sessionTrace] at hpe)
    subst hr
    refine ⟨Or.inr (Or.inl rfl), hp2, fun _ => rfl, fun _ => rfl, ?_⟩
    rintro ⟨-, h2⟩
    rw [hl2 h2] at hle
    exact absurd hle (by simp)
  | openF1 r hpe =>
    have hr : s.p1 = [.openF, .closeF, .rel] ∧ r = [.closeF, .rel] := by
      rcases hp1 with h1 | h1 | h1 | h1 | h1 <;> rw [h1] at hpe <;>
        first
        | (injection hpe with he ht; exact ⟨h1, ht.symm⟩)
        | (exfalso; simp [sessionTrace] at hpe)
    obtain ⟨h1eq, hreq⟩ := hr
    subst hreq
    have hold1 : holdsLock s.p1 = true := by rw [h1eq]; decide
    refine ⟨Or.inr (Or.inr (Or.inl rfl)), hp2, fun _ => hl1 hold1, hl2, ?_⟩
    rintro ⟨-, h2⟩
    exact hx ⟨hold1, h2⟩
  | closeF1 r hpe =>
    have hr : s.p1 = [.closeF, .rel] ∧ r = [.rel] := by
      rcases hp1 with h1 | h1 | h1 | h1 | h1 <;> rw [h1] at hpe <;>
        first
        | (injection hpe with he ht; exact ⟨h1, ht.symm⟩)
        | (exfalso; simp [sessionTrace] at hpe)
    obtain ⟨h1eq, hreq⟩ := hr
    subst hreq
    have hold1 : holdsLock s.p1 = true := by rw [h1eq]; decide
    refine ⟨Or.inr (Or.inr (Or.inr (Or.inl rfl))), hp2, fun _ => hl1 hold1, hl2, ?_⟩
    rintro ⟨-, h2⟩
    exact hx ⟨hold1, h2⟩
  | rel1 r hpe =>
    have hr : s.p1 = [.rel] ∧ r = [] := by
      rcases hp1 with h1 | h1 | h1 | h1 | h1 <;> rw [h1] at hpe <;>
        first
        | (injection hpe with he ht; exact ⟨h1, ht.symm⟩)
        | (exfalso; simp [sessionTrace] at hpe)
    obtain ⟨h1eq, hreq⟩ := hr
    subst hreq
    have hold1 : holdsLock s.p1 = true := by rw [h1eq]; decide
    refine ⟨Or.inr (Or.inr (Or.inr (Or.inr rfl))), hp2, ?_, ?_, ?_⟩
    · intro hcon
      exact absurd hcon (show ¬holdsLock ([] : List LEvent) = true by decide)
    · intro h2
      exact absurd ⟨hold1, h2⟩ hx
    · rintro ⟨hcon, -⟩
      exact absurd hcon (show ¬holdsLock ([] : List LEvent) = true by decide)
  | acq2 r hpe hle =>
    have hr : r = [.openF, .closeF, .rel] := by
      rcases hp2 with h1 | h1 | h1 | h1 | h1 <;> rw [h1] at hpe <;>
        first
        | (injection hpe with he ht; exact ht.symm)
        | (exfalso; simp [sessionTrace] at hpe)
    subst hr
    refine ⟨hp1, Or.inr (Or.inl rfl), fun _ => rfl, fun _ => rfl, ?_⟩
    rintro ⟨h1, -⟩
    rw [hl1 h1] at hle
    exact absurd hle (by simp)
  | openF2 r hpe =>
    have hr : s.p2 = [.openF, .closeF, .rel] ∧ r = [.closeF, .rel] := by
      rcases hp2 with h1 | h1 | h1 | h1 | h1 <;> rw [h1] at hpe <;>
        first
        | (injection hpe with he ht; exact ⟨h1, ht.symm⟩)
        | (exfalso; simp [sessionTrace] at hpe)
    obtain ⟨h2eq, hreq⟩ := hr
    subst hreq
    have hold2 : holdsLock s.p2 = true := by rw [h2eq]; decide
    refine ⟨hp1, Or.inr (Or.inr (Or.inl rfl)), hl1, fun _ => hl2 hold2, ?_⟩
    rintro ⟨h1, -⟩
    exact hx ⟨h1, hold2⟩
  | closeF2 r hpe =>
    have hr : s.p2 = [.closeF, .rel] ∧ r = [.rel] := by
      rcases hp2 with h1 | h1 | h1 | h1 | h1 <;> rw [h1] at hpe <;>
        first
        | (injection hpe with he ht; exact ⟨h1, ht.symm⟩)
        | (exfalso; simp [sessionTrace] at hpe)
    obtain ⟨h2eq, hreq⟩ := hr
    subst hreq
    have hold2 : holdsLock s.p2 = true := by rw [h2eq]; decide
    refine ⟨hp1, Or.inr (Or.inr (Or.inr (Or.inl rfl))), hl1, fun _ => hl2 hold2, ?_⟩
    rintro ⟨h1, -⟩
    exact hx ⟨h1, hold2⟩
  | rel2 r hpe =>
    have hr : s.p2 = [.rel] ∧ r = [] := by
      rcases hp2 with h1 | h1 | h1 | h1 | h1 <;> rw [h1] at hpe <;>
        first
        | (injection hpe with he ht; exact ⟨h1, ht.symm⟩)
        | (exfalso; simp [sessionTrace] at hpe)
    obtain ⟨h2eq, hreq⟩ := hr
    subst hreq
    have hold2 : holdsLock s.p2 = true := by rw [h2eq]; decide
    refine ⟨hp1, Or.inr (Or.inr (Or.inr (Or.inr rfl))), ?_, ?_, ?_⟩
    · intro h1
      exact absurd ⟨h1, hold2⟩ hx
    · intro hcon
      exact absurd hcon (show ¬holdsLock ([] : List LEvent) = true by decide)
    · rintro ⟨-, hcon⟩
      exact absurd hcon (show ¬holdsLock ([] : List LEvent) = true by decide)

theorem lockInv_reach {s : LockSt} (h : Relation.ReflTransGen LStep initLock s) : LockInv s := by
  induction h with
  | refl => exact lockInv_init
  | tail hsteps hstep ih => exact lockInv_step ih hstep

theorem has_clip_of_get_clip_meta {db : DB} {c : String} {attrs : List (String × AttrValue)}
    (h : get_clip_meta db c = .ok attrs) (hf : (lookupA "finished" attrs).isSome = true) :
    has_clip db c = true := by
  cases hl : lookupA c db.clips with
  | none => simp [get_clip_meta, hl] at h
  | some clip =>
    simp only [get_clip_meta, hl, Except.ok.injEq] at h
    subst h
    simp only [has_clip, hl]
    exact hf

set_option maxHeartbeats 1000000 in
theorem create_clip_tracker_meta {db db' : DB} {c : String} {tk : Tracker}
    (h : create_clip db c (some tk) true = .ok db') (hwf : DB.WF db) :
    get_clip_meta db' c = .ok
      [("filename", .str tk.source_file),
       ("start_time", .str tk.video_start_time),
       ("threshold", .num tk.threshold),
       ("confidence", pyOr (statGet tk.stats "confidence" (.num 0)) (.num 0)),
       ("trap", pyOr (statGet tk.stats "trap" (.str "")) (.str "")),
       ("event", pyOr (statGet tk.stats "event" (.str "")) (.str "")),
       ("average_background_delta", statGet tk.stats "average_background_delta" (.num 0)),
       ("mean_temp", statGet tk.stats "mean_temp" (.num 0)),
       ("max_temp", statGet tk.stats "max_temp" (.num 0)),
       ("min_temp", statGet tk.stats "min_temp" (.num 0)),
       ("finished", .boolean true)] := by
  obtain ⟨rfl, -⟩ := create_clip_ok_inv h
  have hA : createClipWrites c (some tk) true
      = [delClip c, createGroup c,
         setClipAttr c "filename" (.str tk.source_file),
         setClipAttr c "start_time" (.str tk.video_start_time),
         setClipAttr c "threshold" (.num tk.threshold),
         setClipAttr c "confidence" (pyOr (statGet tk.stats "confidence" (.num 0)) (.num 0)),
         setClipAttr c "trap" (pyOr (statGet tk.stats "trap" (.str "")) (.str "")),
         setClipAttr c "event" (pyOr (statGet tk.stats "event" (.str "")) (.str "")),
         setClipAttr c "average_background_delta"
           (statGet tk.stats "average_background_delta" (.num 0)),
         setClipAttr c "mean_temp" (statGet tk.stats "mean_temp" (.num 0)),
         setClipAttr c "max_temp" (statGet tk.stats "max_temp" (.num 0)),
         setClipAttr c "min_temp" (statGet tk.stats "min_temp" (.num 0)),
         flushStore, setClipAttr c "finished" (.boolean true)] := rfl
  rw [hA]
  simp only [runWrites_cons, runWrites_nil]
  have habs : lookupA c (delClip c db).clips = none := lookupA_eraseA_self c hwf.1
  have h1 : get_clip_meta (createGroup c (delClip c db)) c = .ok [] := by
    simp [get_clip_meta, createGroup, habs, lookupA_append_single_self _ habs]
  rw [get_clip_meta_setClipAttr_self, flushStore_eq, get_clip_meta_setClipAttr_self,
    get_clip_meta_setClipAttr_self, get_clip_meta_setClipAttr_self,
    get_clip_meta_setClipAttr_self, get_clip_meta_setClipAttr_self,
    get_clip_meta_setClipAttr_self, get_clip_meta_setClipAttr_self,
    get_clip_meta_setClipAttr_self, get_clip_meta_setClipAttr_self,
    get_clip_meta_setClipAttr_self, h1]
  simp [Except.map, setA]

theorem openSessions_le_one_of_inv {s : LockSt} (h : LockInv s) : openSessions s ≤ 1 := by
  obtain ⟨-, -, -, -, hx⟩ := h
  rw [openSessions]
  by_cases h1 : sessionOpen s.p1 = true
  · by_cases h2 : sessionOpen s.p2 = true
    · exact absurd ⟨holdsLock_of_open h1, holdsLock_of_open h2⟩ hx
    · simp [h1, h2]
  · by_cases h2 : sessionOpen s.p2 = true
    · simp [h1, h2]
    · simp [h1, h2]

/-! ## Claims -/

/-- Claim C1 (code bug): after a successful `add_track` of a
4-dimensional int16 array stored under track id t, `get_track` is
supposed to return the stored array (its own docstring promises a numpy
array of shape [frames, channels, height, width]), and with bounds the
Python slice along the frame axis.  The translated body shows the bug:
after fetching the track dataset at `clips[clip_id][track_id]`, the code
indexes that int16 dataset a second time with the track id string
(`track_node[str(track_id)]`), which h5py only accepts for compound
dtypes — so `get_track` raises ValueError on every track `add_track`
stores, even though the dataset itself holds the array verbatim. -/
theorem claim1_get_track_raises :
    isOkE (add_track (okD (create_clip emptyDB "clip1" none true) emptyDB)
        "clip1" "1" ⟨[1, 1, 1, 1], [7]⟩ none) = true
    ∧ get_track (okD (add_track (okD (create_clip emptyDB "clip1" none true) emptyDB)
        "clip1" "1" ⟨[1, 1, 1, 1], [7]⟩ none) emptyDB) "clip1" "1" none none
      = .error .valueError
    ∧ getDataset (okD (add_track (okD (create_clip emptyDB "clip1" none true) emptyDB)
        "clip1" "1" ⟨[1, 1, 1, 1], [7]⟩ none) emptyDB) "clip1" "1"
      = some ⟨[1, 1, 1, 1], [7], []⟩ := by
  exact ⟨by decide, by decide, by decide⟩

/-- Claim C2: `has_clip c` is true iff the clips collection holds a node
named c that carries the `finished` attribute; in particular it is false
for an id never targeted by `create_clip` in any operation history run
from the fresh database, and false for a node lacking the marker. -/
theorem claim2_has_clip_characterisation :
    (∀ db : DB, DB.WF db → ∀ c : String,
      (has_clip db c = true ↔
        ∃ clip, (c, clip) ∈ db.clips ∧ ∃ v, ("finished", v) ∈ clip.attrs))
    ∧ (∀ (ops : List Op) (c : String), (∀ op ∈ ops, createsClip op c = false) →
        has_clip (runOps emptyDB ops) c = false) := by
  refine ⟨fun db hwf c => has_clip_iff hwf c, fun ops c hops => ?_⟩
  exact has_clip_false_of_absent (runOps_not_created ops emptyDB c rfl hops)

/-- Witness for C2 at concrete inputs. -/
theorem claim2_witness :
    DB.WF emptyDB
    ∧ (has_clip emptyDB "a" = true ↔
        ∃ clip, ("a", clip) ∈ emptyDB.clips ∧ ∃ v, ("finished", v) ∈ clip.attrs)
    ∧ has_clip (runOps emptyDB [Op.createClipOp "a" none true]) "b" = false := by
  refine ⟨emptyDB_WF, claim2_has_clip_characterisation.1 emptyDB emptyDB_WF "a",
    claim2_has_clip_characterisation.2 [Op.createClipOp "a" none true] "b" ?_⟩
  intro op hop
  rcases List.mem_singleton.mp hop with rfl
  decide

/-- Counterexample to C3 as stated: on a database whose clip `c` is
finished, `create_clip(c, overwrite=True)` interrupted right after its
deletion write leaves `has_clip c` false, not the prior true — the
previous durable state is destroyed, not preserved. -/
theorem claim3_counterexample :
    has_clip (okD (create_clip emptyDB "c" none true) emptyDB) "c" = true
    ∧ has_clip (create_clip_faulted (okD (create_clip emptyDB "c" none true) emptyDB)
        "c" none true 1) "c" = false := by
  exact ⟨by decide, by decide⟩

/-- Claim C3 (amended): a fault in `add_track` anywhere before the
finishing-attribute write leaves `has_clip` unchanged for every clip; a
fault in `create_clip` before its finishing write leaves `has_clip`
false for the target clip whenever the clip was not previously finished,
and leaves every other clip unchanged — but a previously finished clip
may have been deleted by the overwrite, so its `has_clip` can drop to
false (see the counterexample). -/
theorem claim3_amended :
    (∀ (db : DB) (c t : String) (A : NDArray) (rec : Option TrackRecord) (k : Nat),
      k ≤ (addTrackFront c t A rec).length →
      ∀ c', has_clip (add_track_faulted db c t A rec k) c' = has_clip db c')
    ∧ (∀ (db : DB) (c : String) (tk : Option Tracker) (ow : Bool) (k : Nat), DB.WF db →
        k ≤ (createClipFront c tk ow).length →
        (has_clip db c = false → has_clip (create_clip_faulted db c tk ow k) c = false)
        ∧ ∀ c', c' ≠ c → has_clip (create_clip_faulted db c tk ow k) c' = has_clip db c') := by
  refine ⟨fun db c t A rec k hk c' => add_track_faulted_has_clip hk c',
    fun db c tk ow k hwf hk => ⟨fun hf => create_clip_faulted_unfinished hwf hf hk,
      fun c' hne => create_clip_faulted_other hne k⟩⟩

/-- Witness for C3 at concrete inputs. -/
theorem claim3_witness :
    has_clip (add_track_faulted (okD (create_clip emptyDB "c" none true) emptyDB)
        "c" "t" ⟨[1, 1, 1, 1], [5]⟩ none 1) "c"
      = has_clip (okD (create_clip emptyDB "c" none true) emptyDB) "c"
    ∧ has_clip (create_clip_faulted emptyDB "x" none true 1) "x" = false := by
  constructor
  · exact claim3_amended.1 _ "c" "t" _ none 1 (by decide) "c"
  · exact (claim3_amended.2 emptyDB "x" none true 1 emptyDB_WF (by decide)).1 (by decide)

/-- Claim C4: `create_clip(c, overwrite=True)` deletes any existing node
named c entirely before creating the fresh one: the resulting clip node
has no tracks, so no pair (c, t) — in particular none added before a
second overwriting call — survives in the track listing. -/
theorem claim4_overwrite_replaces {db db' : DB} {c : String} {tk : Option Tracker}
    (hwf : DB.WF db) (h : create_clip db c tk true = .ok db') :
    clipTracks db' c = some [] ∧ ∀ t, (c, t) ∉ get_all_track_ids db' := by
  refine ⟨create_clip_clipTracks h hwf, fun t hmem => ?_⟩
  have hwf' : DB.WF db' := create_clip_WF h hwf
  have hpm := (mem_get_all_track_ids hwf' c t).mp hmem
  rw [create_clip_pairMem h hwf c t, if_pos rfl] at hpm
  exact absurd hpm (by simp)

/-- Witness for C4: two successive overwriting creations of the same
clip, with a track added between them, leave no (c, t) pair. -/
theorem claim4_witness :
    clipTracks (okD (create_clip (okD (add_track (okD (create_clip emptyDB "c" none true)
        emptyDB) "c" "t" ⟨[1, 1, 1, 1], [5]⟩ none) emptyDB) "c" none true) emptyDB) "c"
      = some []
    ∧ ("c", "t") ∉ get_all_track_ids (okD (create_clip (okD (add_track
        (okD (create_clip emptyDB "c" none true) emptyDB) "c" "t" ⟨[1, 1, 1, 1], [5]⟩ none)
        emptyDB) "c" none true) emptyDB) := by
  have h : create_clip (okD (add_track (okD (create_clip emptyDB "c" none true) emptyDB)
      "c" "t" ⟨[1, 1, 1, 1], [5]⟩ none) emptyDB) "c" none true
      = .ok (okD (create_clip (okD (add_track (okD (create_clip emptyDB "c" none true)
          emptyDB) "c" "t" ⟨[1, 1, 1, 1], [5]⟩ none) emptyDB) "c" none true) emptyDB) := by
    decide
  have hwf : DB.WF (okD (add_track (okD (create_clip emptyDB "c" none true) emptyDB)
      "c" "t" ⟨[1, 1, 1, 1], [5]⟩ none) emptyDB) := by decide
  obtain ⟨h1, h2⟩ := claim4_overwrite_replaces hwf h
  exact ⟨h1, h2 "t"⟩

/-- Counterexample to C5 as stated: after `create_clip(c)` with no
tracker, the clip metadata holds only the finished marker — there is no
`confidence` (or `trap`, `event`, temperature) attribute at all, rather
than the claimed default values. -/
theorem claim5_counterexample :
    isOkE (create_clip emptyDB "c" none true) = true
    ∧ lookupA "confidence"
        (okD (get_clip_meta (okD (create_clip emptyDB "c" none true) emptyDB) "c") []) = none
    ∧ lookupA "trap"
        (okD (get_clip_meta (okD (create_clip emptyDB "c" none true) emptyDB) "c") []) = none
    ∧ lookupA "mean_temp"
        (okD (get_clip_meta (okD (create_clip emptyDB "c" none true) emptyDB) "c") []) = none := by
  exact ⟨by decide, by decide, by decide, by decide⟩

/-- Claim C5 (amended): after `create_clip(c)` with no tracker,
`has_clip c` is true and the clip metadata is exactly the finished
marker; the defaults — confidence 0.0, trap and event empty strings,
background-delta and the temperatures 0, never null — are written only
when a tracker is supplied whose stats lack those keys. -/
theorem claim5_amended :
    (∀ (db db' : DB) (c : String), DB.WF db → create_clip db c none true = .ok db' →
      has_clip db' c = true
      ∧ get_clip_meta db' c = .ok [("finished", AttrValue.boolean true)])
    ∧ (∀ (db db' : DB) (c : String) (tk : Tracker), DB.WF db →
        create_clip db c (some tk) true = .ok db' →
        lookupA "confidence" tk.stats = none → lookupA "trap" tk.stats = none →
        lookupA "event" tk.stats = none →
        lookupA "average_background_delta" tk.stats = none →
        lookupA "mean_temp" tk.stats = none → lookupA "max_temp" tk.stats = none →
        lookupA "min_temp" tk.stats = none →
        ∃ attrs, get_clip_meta db' c = .ok attrs
          ∧ lookupA "confidence" attrs = some (.num 0)
          ∧ lookupA "trap" attrs = some (.str "")
          ∧ lookupA "event" attrs = some (.str "")
          ∧ lookupA "average_background_delta" attrs = some (.num 0)
          ∧ lookupA "mean_temp" attrs = some (.num 0)
          ∧ lookupA "max_temp" attrs = some (.num 0)
          ∧ lookupA "min_temp" attrs = some (.num 0)
          ∧ lookupA "finished" attrs = some (.boolean true)
          ∧ has_clip db' c = true) := by
  constructor
  · intro db db' c hwf h
    have hm := create_clip_none_meta h hwf
    exact ⟨has_clip_of_get_clip_meta hm (by decide), hm⟩
  · intro db db' c tk hwf h h1 h2 h3 h4 h5 h6 h7
    have hm := create_clip_tracker_meta h hwf
    refine ⟨_, hm, ?_, ?_, ?_, ?_, ?_, ?_, ?_, ?_, ?_⟩
    · simp [lookupA, statGet, h1, pyOr, isFalsy]
    · simp [lookupA, statGet, h2, pyOr, isFalsy]
    · simp [lookupA, statGet, h3, pyOr, isFalsy]
    · simp [lookupA, statGet, h4]
    · simp [lookupA, statGet, h5]
    · simp [lookupA, statGet, h6]
    · simp [lookupA, statGet, h7]
    · simp [lookupA]
    · refine has_clip_of_get_clip_meta hm ?_
      simp [lookupA]

/-- Witness for C5 at concrete inputs. -/
theorem claim5_witness :
    (has_clip (okD (create_clip emptyDB "c" none true) emptyDB) "c" = true
      ∧ get_clip_meta (okD (create_clip emptyDB "c" none true) emptyDB) "c"
          = .ok [("finished", AttrValue.boolean true)])
    ∧ ∃ attrs, get_clip_meta (okD (create_clip emptyDB "d"
          (some ⟨"file.cptv", "2017-12-01", 3, []⟩) true) emptyDB) "d" = .ok attrs
        ∧ lookupA "confidence" attrs = some (.num 0)
        ∧ lookupA "trap" attrs = some (.str "")
        ∧ lookupA "event" attrs = some (.str "")
        ∧ lookupA "average_background_delta" attrs = some (.num 0)
        ∧ lookupA "mean_temp" attrs = some (.num 0)
        ∧ lookupA "max_temp" attrs = some (.num 0)
        ∧ lookupA "min_temp" attrs = some (.num 0)
        ∧ lookupA "finished" attrs = some (.boolean true)
        ∧ has_clip (okD (create_clip emptyDB "d"
            (some ⟨"file.cptv", "2017-12-01", 3, []⟩) true) emptyDB) "d" = true := by
  constructor
  · exact claim5_amended.1 emptyDB _ "c" emptyDB_WF (by decide)
  · exact claim5_amended.2 emptyDB _ "d" ⟨"file.cptv", "2017-12-01", 3, []⟩ emptyDB_WF
      (by decide) rfl rfl rfl rfl rfl rfl rfl

/-- Claim C6: for every successful `add_track` with a track record, the
stored `mass_history` attribute is an int32 array and `bounds_history`
an int16 array of rows [left, top, right, bottom], each of length equal
to the payload's frame count F.  The record class itself is not under
src/; per the spec its `bounds_history` is per-frame, taken here as the
hypothesis that its length equals F. -/
theorem claim6_history_lengths {db db' : DB} {c t : String} {A : NDArray} {rec : TrackRecord}
    {f ch hh w : Nat} (hshape : A.shape = [f, ch, hh, w])
    (h : add_track db c t A (some rec) = .ok db')
    (hbounds : rec.bounds_history.length = f) :
    ∃ attrs, get_track_meta db' c t = .ok attrs
      ∧ lookupA "mass_history" attrs = some (.numArr (massHistory rec))
      ∧ lookupA "bounds_history" attrs = some (.numArr2 (boundsHistory rec))
      ∧ (massHistory rec).length = f
      ∧ (boundsHistory rec).length = f
      ∧ (∀ v ∈ massHistory rec, -2147483648 ≤ v ∧ v < 2147483648)
      ∧ (∀ row ∈ boundsHistory rec, row.length = 4 ∧ ∀ v ∈ row, -32768 ≤ v ∧ v < 32768) := by
  refine ⟨_, add_track_meta h, ?_, ?_, ?_, ?_, ?_, ?_⟩
  · rw [lookupA_setA_ne (by decide), lookupA_setA_self]
  · rw [lookupA_setA_self]
  · rw [massHistory, List.length_map, hbounds]
  · rw [boundsHistory, List.length_map, hbounds]
  · intro v hv
    obtain ⟨b, hb, rfl⟩ := List.mem_map.mp hv
    exact wrapInt32_bounds _
  · intro row hrow
    obtain ⟨b, hb, rfl⟩ := List.mem_map.mp hrow
    refine ⟨rfl, ?_⟩
    intro v hv
    simp only [List.mem_cons, List.not_mem_nil, or_false] at hv
    rcases hv with rfl | rfl | rfl | rfl <;> exact wrapInt16_bounds _

/-- Witness for C6 at a concrete two-frame track. -/
theorem claim6_witness :
    (⟨[2, 1, 1, 1], [3, 4]⟩ : NDArray).shape = [2, 1, 1, 1]
    ∧ (⟨7, "possum", "s", "e", [], [⟨0, 0, 1, 1, 5⟩, ⟨0, 0, 2, 2, 6⟩]⟩ :
        TrackRecord).bounds_history.length = 2
    ∧ ∃ attrs, get_track_meta (okD (add_track (okD (create_clip emptyDB "c" none true)
          emptyDB) "c" "t" ⟨[2, 1, 1, 1], [3, 4]⟩
          (some ⟨7, "possum", "s", "e", [], [⟨0, 0, 1, 1, 5⟩, ⟨0, 0, 2, 2, 6⟩]⟩))
          emptyDB) "c" "t" = .ok attrs
        ∧ lookupA "mass_history" attrs
            = some (.numArr (massHistory ⟨7, "possum", "s", "e", [],
                [⟨0, 0, 1, 1, 5⟩, ⟨0, 0, 2, 2, 6⟩]⟩))
        ∧ lookupA "bounds_history" attrs
            = some (.numArr2 (boundsHistory ⟨7, "possum", "s", "e", [],
                [⟨0, 0, 1, 1, 5⟩, ⟨0, 0, 2, 2, 6⟩]⟩))
        ∧ (massHistory ⟨7, "possum", "s", "e", [],
            [⟨0, 0, 1, 1, 5⟩, ⟨0, 0, 2, 2, 6⟩]⟩).length = 2
        ∧ (boundsHistory ⟨7, "possum", "s", "e", [],
            [⟨0, 0, 1, 1, 5⟩, ⟨0, 0, 2, 2, 6⟩]⟩).length = 2
        ∧ (∀ v ∈ massHistory ⟨7, "possum", "s", "e", [],
            [⟨0, 0, 1, 1, 5⟩, ⟨0, 0, 2, 2, 6⟩]⟩, -2147483648 ≤ v ∧ v < 2147483648)
        ∧ (∀ row ∈ boundsHistory ⟨7, "possum", "s", "e", [],
            [⟨0, 0, 1, 1, 5⟩, ⟨0, 0, 2, 2, 6⟩]⟩, row.length = 4
              ∧ ∀ v ∈ row, -32768 ≤ v ∧ v < 32768) := by
  refine ⟨rfl, rfl, ?_⟩
  have h : add_track (okD (create_clip emptyDB "c" none true) emptyDB) "c" "t"
      ⟨[2, 1, 1, 1], [3, 4]⟩
      (some ⟨7, "possum", "s", "e", [], [⟨0, 0, 1, 1, 5⟩, ⟨0, 0, 2, 2, 6⟩]⟩)
      = .ok (okD (add_track (okD (create_clip emptyDB "c" none true) emptyDB) "c" "t"
          ⟨[2, 1, 1, 1], [3, 4]⟩
          (some ⟨7, "possum", "s", "e", [], [⟨0, 0, 1, 1, 5⟩, ⟨0, 0, 2, 2, 6⟩]⟩)) emptyDB) := by
    decide
  exact claim6_history_lengths rfl h rfl

/-- Counterexample to C7 as stated: a successfully completed `add_track`
pair vanishes from the listing after a later overwriting `create_clip`
of its clip, and the listing order is ascending name order (h5py's
default iteration index), not on-disk insertion order — clips created in
the order b, a are listed a before b. -/
theorem claim7_counterexample :
    opsOk emptyDB [Op.createClipOp "c" none true,
      Op.addTrackOp "c" "t" ⟨[1, 1, 1, 1], [5]⟩ none,
      Op.createClipOp "c" none true] = true
    ∧ ("c", "t") ∈ get_all_track_ids (runOps emptyDB
        [Op.createClipOp "c" none true, Op.addTrackOp "c" "t" ⟨[1, 1, 1, 1], [5]⟩ none])
    ∧ ("c", "t") ∉ get_all_track_ids (runOps emptyDB [Op.createClipOp "c" none true,
        Op.addTrackOp "c" "t" ⟨[1, 1, 1, 1], [5]⟩ none, Op.createClipOp "c" none true])
    ∧ opsOk emptyDB [Op.createClipOp "b" none true,
        Op.addTrackOp "b" "u" ⟨[1, 1, 1, 1], [5]⟩ none,
        Op.createClipOp "a" none true,
        Op.addTrackOp "a" "v" ⟨[1, 1, 1, 1], [5]⟩ none] = true
    ∧ get_all_track_ids (runOps emptyDB [Op.createClipOp "b" none true,
        Op.addTrackOp "b" "u" ⟨[1, 1, 1, 1], [5]⟩ none,
        Op.createClipOp "a" none true,
        Op.addTrackOp "a" "v" ⟨[1, 1, 1, 1], [5]⟩ none]) = [("a", "v"), ("b", "u")] := by
  exact ⟨by decide, by decide, by decide, by decide, by decide⟩

/-- Claim C7 (amended): after any all-successful operation history from
the fresh database, the track listing contains exactly the pairs whose
`add_track` succeeded after the last `create_clip` of their clip — each
exactly once — in the deterministic name-ordered iteration of the store
(not insertion order; see the counterexample). -/
theorem claim7_amended (ops : List Op) (hok : opsOk emptyDB ops = true) :
    (∀ c t, ((c, t) ∈ get_all_track_ids (runOps emptyDB ops) ↔ livePair ops c t = true))
    ∧ (get_all_track_ids (runOps emptyDB ops)).Nodup := by
  obtain ⟨hwf, hmem⟩ := runOps_pairMem ops emptyDB emptyDB_WF hok
  refine ⟨fun c t => ?_, nodup_get_all_track_ids hwf⟩
  rw [mem_get_all_track_ids hwf c t, hmem c t]
  exact Iff.rfl

/-- Witness for C7 at a concrete history. -/
theorem claim7_witness :
    (("c", "t") ∈ get_all_track_ids (runOps emptyDB [Op.createClipOp "c" none true,
        Op.addTrackOp "c" "t" ⟨[1, 1, 1, 1], [5]⟩ none])
      ↔ livePair [Op.createClipOp "c" none true,
          Op.addTrackOp "c" "t" ⟨[1, 1, 1, 1], [5]⟩ none] "c" "t" = true)
    ∧ (get_all_track_ids (runOps emptyDB [Op.createClipOp "c" none true,
        Op.addTrackOp "c" "t" ⟨[1, 1, 1, 1], [5]⟩ none])).Nodup := by
  exact ⟨(claim7_amended [Op.createClipOp "c" none true,
      Op.addTrackOp "c" "t" ⟨[1, 1, 1, 1], [5]⟩ none] (by decide)).1 "c" "t",
    (claim7_amended [Op.createClipOp "c" none true,
      Op.addTrackOp "c" "t" ⟨[1, 1, 1, 1], [5]⟩ none] (by decide)).2⟩

/-- Counterexample to C8 as stated: `create_clip(c, overwrite=False)` on
an existing clip id does raise — `create_group` fails with ValueError on
the existing name — rather than returning silently. -/
theorem claim8_counterexample :
    create_clip (okD (create_clip emptyDB "c" none true) emptyDB) "c" none false
      = .error .valueError := by decide

/-- Claim C8 (amended): `create_clip(c, overwrite=False)` on an existing
clip id raises ValueError, and the raise happens before any mutation:
the existing clip node, its attributes, and every track under it are
left intact (the state is unchanged). -/
theorem claim8_amended {db : DB} {c : String} {tk : Option Tracker}
    (h : (lookupA c db.clips).isSome = true) :
    create_clip db c tk false = .error .valueError
    ∧ applyOp db (.createClipOp c tk false) = db := by
  have he : create_clip db c tk false = .error .valueError := by
    simp [create_clip, h]
  refine ⟨he, ?_⟩
  simp only [applyOp, runOp, he]

/-- Witness for C8 at concrete inputs. -/
theorem claim8_witness :
    create_clip (okD (create_clip emptyDB "c" none true) emptyDB) "c" none false
        = .error .valueError
    ∧ applyOp (okD (create_clip emptyDB "c" none true) emptyDB)
        (.createClipOp "c" none false) = okD (create_clip emptyDB "c" none true) emptyDB :=
  claim8_amended (by decide)

/-- Claim C9: every store operation brackets its open-store window in
acquire/release (the session trace is acquire, open, close, release,
with close and release running on every exit path of the body); in every
interleaved execution of two sessions against the shared lock, the
number of concurrently open sessions never exceeds one. -/
theorem claim9_mutual_exclusion (s : LockSt)
    (h : Relation.ReflTransGen LStep initLock s) : openSessions s ≤ 1 :=
  openSessions_le_one_of_inv (lockInv_reach h)

/-- Witness for C9: a concrete reachable state with one session holding
the store open. -/
theorem claim9_witness :
    openSessions ⟨[LEvent.closeF, LEvent.rel], sessionTrace, true⟩ ≤ 1 :=
  claim9_mutual_exclusion ⟨[LEvent.closeF, LEvent.rel], sessionTrace, true⟩
    (Relation.ReflTransGen.tail
      (Relation.ReflTransGen.tail Relation.ReflTransGen.refl
        (LStep.acq1 initLock [LEvent.openF, LEvent.closeF, LEvent.rel] rfl rfl))
      (LStep.openF1 ⟨[LEvent.openF, LEvent.closeF, LEvent.rel], sessionTrace, true⟩
        [LEvent.closeF, LEvent.rel] rfl))

/-- Claim C10: every query operation — has_clip, get_all_track_ids,
get_clip_meta, get_track_meta and get_track — opens the store in the
default read-only mode, and its session leaves the database state
exactly as it was, whether it returns a result or an error. -/
theorem claim10_queries_readonly (q : Query) (db : DB) :
    queryMode q = FileMode.read ∧ (runQuery db q).2 = db := by
  cases q <;> exact ⟨rfl, rfl⟩

end TrackDb

